import Mathlib

/-!
Verification development for the nimcrawl scraping toolkit.

Part 1 embeds the adaptive fetcher (`detectContentType`, `simpleFetch`,
`jsDomFetch`, `smartFetch` from the fetcher module) as pure Lean functions.
External collaborators (the WHATWG URL parser, the cheerio DOM analyzer and
the JSDOM renderer) are parameters of a `FetchEnv` record: the claims under
study quantify over their behaviour.  Network calls are counted explicitly:
`simpleCalls n` is the outcome of the `n`-th invocation of `simpleFetch`
for the URL, and every fetch-level function threads the call counter, so a
function's final counter value is the number of network fetches it issued.

The JavaScript comparison `jsdomLen > staticLen * 1.1` on floating-point
doubles is modelled as the exact rational comparison
`11 * staticLen < 10 * jsdomLen`; for content lengths far below 2^50 the
two agree, the double rounding error being several orders of magnitude
smaller than the gap to the nearest integer.
-/

namespace NimCrawl

/-- Structural metrics the detector computes from the fetched HTML via
cheerio (text length, tag counts, lazy-load attribute count).  The cheerio
computation itself is an external parser, abstracted as a function
`String → Metrics` in the fetch environment. -/
structure Metrics where
  textLength : Nat
  paragraphs : Nat
  headings : Nat
  contentElements : Nat
  links : Nat
  images : Nat
  scripts : Nat
  lazyLoadElements : Nat
deriving DecidableEq, Repr

/-- KNOWN_STATIC_DOMAINS from the fetcher module. -/
def knownStaticDomains : List String :=
  ["example.com", "www.example.com", "en.wikipedia.org",
   "developer.mozilla.org", "www.iana.org", "www.mozilla.org",
   "static.mozilla.com"]

/-- KNOWN_JS_HEAVY_DOMAINS from the fetcher module. -/
def knownJsHeavyDomains : List String :=
  ["bun.sh", "angular.io", "reactjs.org", "vuejs.org", "svelte.dev"]

/-- The `toLowerCase` call on the hostname, written directly over the
character list so that it evaluates inside the kernel (`String.toLower`
itself is the same map but compiled through `String.mapAux`, which does
not reduce definitionally). -/
def lowerStr (s : String) : String := String.mk (s.data.map Char.toLower)

/-- quickContentTypeCheck: `hostname` is the result of `new URL(url).hostname`
(`none` when the parse throws, which the source catches and treats as no
skip).  The result `some b` models `skip = true` with `needsJavaScript = b`;
`none` models `skip = false`. -/
def quickContentTypeCheck (hostname : Option String) : Option Bool :=
  match hostname with
  | none => none
  | some h =>
    let hl := lowerStr h
    if knownStaticDomains.contains hl then some false
    else if knownJsHeavyDomains.contains hl then some true
    else none

/-- Result of content-type detection.  The `format` string of the source is
data passthrough from a meta tag and is not involved in any claim, so it is
omitted. -/
structure ContentType where
  isStatic : Bool
  needsJavaScript : Bool
deriving DecidableEq, Repr

/-- detectContentType from the fetcher module: domain fast path, then the
metric-based classification. -/
def detectContentType (hostname : Option String) (m : Metrics) : ContentType :=
  match quickContentTypeCheck hostname with
  | some nj => ⟨!nj, nj⟩
  | none =>
    let hasSubstantialContent : Bool :=
      decide (500 < m.textLength) ||
        (decide (2 < m.paragraphs) && decide (0 < m.links) &&
          (decide (0 < m.headings) || decide (0 < m.contentElements)))
    let isLikelySPA : Bool :=
      decide (m.textLength < 200) && decide (m.paragraphs < 2) &&
        decide (m.headings < 1) && decide (3 < m.scripts)
    let hasLazyContent : Bool := decide (0 < m.lazyLoadElements)
    let needsJavaScript := (!hasSubstantialContent && isLikelySPA) || hasLazyContent
    ⟨!needsJavaScript, needsJavaScript⟩

/-- Outcome of one lightweight HTTP fetch (html text and HTTP status; the
response headers are data passthrough and not involved in any claim). -/
structure SimpleResult where
  html : String
  status : Nat
deriving DecidableEq, Repr

/-- The environment a fetch runs in: the URL, its parsed hostname, the
outcome of each successive network fetch of the URL, the JSDOM render
behaviour (input: the HTML the renderer is seeded with; `Except.error`
models a throwing JSDOM construction, `Except.ok h` the serialized DOM, the
in-renderer timeout fallbacks already folded in), and the cheerio metric
extraction. -/
structure FetchEnv where
  url : String
  hostname : Option String
  simpleCalls : Nat → Except String SimpleResult
  render : String → Except String String
  metricsOf : String → Metrics

/-- One invocation of `simpleFetch`: consumes call index `n`. -/
def simpleFetchOp (env : FetchEnv) (n : Nat) : Except String SimpleResult × Nat :=
  (env.simpleCalls n, n + 1)

/-- jsDomFetch from the fetcher module: performs its own lightweight fetch
to obtain the HTML the JSDOM instance is seeded with, then runs the
renderer.  A failure of the inner fetch or of JSDOM construction is wrapped
and rethrown; post-construction failures are already folded into `render`. -/
def jsDomFetch (env : FetchEnv) (n : Nat) : Except String SimpleResult × Nat :=
  match simpleFetchOp env n with
  | (Except.error e, n1) =>
    (Except.error ("Failed to fetch with jsdom " ++ env.url ++ ": " ++ e), n1)
  | (Except.ok r, n1) =>
    match env.render r.html with
    | Except.error e =>
      (Except.error ("Failed to fetch with jsdom " ++ env.url ++ ": " ++ e), n1)
    | Except.ok h => (Except.ok ⟨h, 200⟩, n1)

/-- Result of `smartFetch` (headers omitted as data passthrough). -/
structure SmartResult where
  html : String
  status : Nat
  usedJsdom : Bool
deriving DecidableEq, Repr

/-- smartFetch from the fetcher module: known-domain fast paths, then
lightweight fetch, content-type detection, and the guarded JSDOM
escalation.  The second component is the final network-fetch counter. -/
def smartFetch (env : FetchEnv) : Except String SmartResult × Nat :=
  match quickContentTypeCheck env.hostname with
  | some false =>
    match simpleFetchOp env 0 with
    | (Except.error e, n1) => (Except.error e, n1)
    | (Except.ok r, n1) => (Except.ok ⟨r.html, r.status, false⟩, n1)
  | some true =>
    match simpleFetchOp env 0 with
    | (Except.error e, n1) => (Except.error e, n1)
    | (Except.ok r, n1) =>
      match jsDomFetch env n1 with
      | (Except.ok j, n2) =>
        if 11 * r.html.length < 10 * j.html.length then
          (Except.ok ⟨j.html, j.status, true⟩, n2)
        else (Except.ok ⟨r.html, r.status, false⟩, n2)
      | (Except.error _, n2) => (Except.ok ⟨r.html, r.status, false⟩, n2)
  | none =>
    match simpleFetchOp env 0 with
    | (Except.error e, n1) =>
      match jsDomFetch env n1 with
      | (Except.ok j, n2) => (Except.ok ⟨j.html, j.status, true⟩, n2)
      | (Except.error _, n2) =>
        (Except.error ("Failed to fetch " ++ env.url ++ ": " ++ e), n2)
    | (Except.ok r, n1) =>
      if (detectContentType env.hostname (env.metricsOf r.html)).needsJavaScript then
        match jsDomFetch env n1 with
        | (Except.ok j, n2) =>
          if 11 * r.html.length < 10 * j.html.length then
            (Except.ok ⟨j.html, j.status, true⟩, n2)
          else (Except.ok ⟨r.html, r.status, false⟩, n2)
        | (Except.error _, n2) => (Except.ok ⟨r.html, r.status, false⟩, n2)
      else (Except.ok ⟨r.html, r.status, false⟩, n1)

/-!
Part 2 embeds the crawl scheduler (`crawlUrl` / `processUrl` from the
crawler module) as a small-step transition system.  The JavaScript runtime
is single-threaded and cooperative: code between two `await` suspension
points runs atomically.  Each `Step` constructor below is one such atomic
block (batch formation and dispatch; a per-URL unit reaching its
`scrapeUrl` await; the post-scrape bookkeeping; the `finally` decrement of
a finished domain batch), and distinct domain batches interleave
nondeterministically, a superset of the interleavings the event loop and
the `pLimit` gate actually produce.  The module-level TTL caches
(`seenUrlsCache`, 1 h TTL; `failedUrlsCache`, 15 min TTL) live in the
global state together with a millisecond clock that advances by explicit
`tick` steps; `cacheHas` mirrors the lazy-expiry read (`expired` iff
`now > expiry`).  External collaborators (the URL parser used by
`getDomain`, the `new URL(...).toString()` normalizer, `scrapeUrl` itself
and `filterLinks`) are parameters of a `CrawlEnv`.
-/

namespace Crawl

abbrev Url := String

/-- Crawl options after default merging (domainDelay only delays the clock
between same-domain URLs and affects no claim, so it is not recorded). -/
structure Config where
  maxDepth : Nat
  maxPages : Nat
  concurrency : Nat
  domainConcurrency : Nat
deriving DecidableEq, Repr

/-- The defaults of `crawlUrl`. -/
def defaultConfig : Config := ⟨3, 100, 5, 2⟩

/-- Outcome of `scrapeUrl` for one URL: success carrying the (optional)
extracted link list, or a failure message.  `scrapeUrl` catches every
exception internally and returns a result object, so no third case is
needed. -/
inductive ScrapeOutcome where
  | ok (links : Option (List Url))
  | err (msg : String)
deriving DecidableEq, Repr

/-- External collaborators of the scheduler.  `host u = none` models a URL
the WHATWG parser rejects (then `getDomain` falls back to the URL itself);
`normalize` is `new URL(link).toString()` (`none` when it throws);
`scrape` is the per-URL page processing; `filterLinks` is the pattern
filter with the run's options baked in. -/
structure CrawlEnv where
  host : Url → Option String
  normalize : Url → Option Url
  scrape : Url → ScrapeOutcome
  filterLinks : List Url → Url → List Url

/-- getDomain from the crawler module. -/
def getDomain (env : CrawlEnv) (u : Url) : String := (env.host u).getD u

/-- Association-list read (models Map.get / Set membership on string keys). -/
def aget {α : Type} : List (String × α) → String → Option α
  | [], _ => none
  | (k, v) :: t, k2 => if k = k2 then some v else aget t k2

/-- Association-list write (models Map.set: overwrite in place or append). -/
def aset {α : Type} : List (String × α) → String → α → List (String × α)
  | [], k, v => [(k, v)]
  | (k2, v2) :: t, k, v => if k2 = k then (k, v) :: t else (k2, v2) :: aset t k v

/-- TTL-cache read: an entry is a hit iff it exists and `now ≤ expiry`
(the source treats `now > expiry` as expired). -/
def cacheHas (c : List (String × Nat)) (now : Nat) (k : String) : Bool :=
  match aget c k with
  | none => false
  | some e => decide (now ≤ e)

/-- seenUrlsCache TTL (1 hour, in ms). -/
def seenTtl : Nat := 3600000

/-- failedUrlsCache TTL (15 minutes, in ms). -/
def failedTtl : Nat := 900000

/-- Progress of one domain batch: `idle pending` between URLs (also the
state right after dispatch and right after the last URL), `scraping u d
pending` while suspended in the `scrapeUrl` await for `u` (recorded with
the depth that was read for it). -/
inductive BatchTask where
  | idle (pending : List Url)
  | scraping (current : Url) (curDepth : Nat) (pending : List Url)
deriving DecidableEq, Repr

/-- One dispatched domain batch; `size` is the original URL count, used by
the `finally` decrement of the domain counter. -/
structure Batch where
  domain : String
  size : Nat
  task : BatchTask
deriving DecidableEq, Repr

/-- The per-run crawl state plus the in-flight batches (the
`activePromises` of the source, restricted to unfinished batches).
`results` abstracts each stored page-data object to the URL it came from. -/
structure CState where
  visited : List Url
  queue : List Url
  results : List Url
  errors : List String
  depth : List (Url × Nat)
  pagesProcessed : Nat
  domainCounts : List (String × Nat)
  lastProcessed : List (String × Nat)
  inFlight : List Batch
deriving DecidableEq, Repr

/-- Global state: the module-level caches, the clock, and the current
run's state. -/
structure GState where
  seen : List (Url × Nat)
  failed : List (Url × Nat)
  now : Nat
  crawl : CState
deriving DecidableEq, Repr

/-- Appends `u` to the batch of domain `d`, creating the batch at the end
if absent (JS Map insertion order). -/
def addToBatch : List (String × List Url) → String → Url → List (String × List Url)
  | [], d, u => [(d, [u])]
  | (d2, us) :: t, d, u =>
    if d2 = d then (d2, us ++ [u]) :: t else (d2, us) :: addToBatch t d u

/-- The batch-formation scan of the main loop: walk the queue front to
back while fewer than `concurrency` distinct domains have been selected;
falsy URLs are left in place; already-visited or failed-cached URLs are
spliced out; URLs whose domain already has `domainConcurrency` in-flight
URLs recorded are left in place (the recorded counts are NOT updated
during the scan, so one pass can select several same-domain URLs); every
selected URL is spliced out and marked visited.  Returns the selected
batches, the new queue and the new visited set. -/
def formGo (env : CrawlEnv) (cfg : Config) (failed : List (Url × Nat)) (now : Nat)
    (dc : List (String × Nat)) :
    List (String × List Url) → List Url → List Url → List Url →
    List (String × List Url) × List Url × List Url
  | batches, kept, vis, [] => (batches, kept.reverse, vis)
  | batches, kept, vis, u :: rest =>
    if cfg.concurrency ≤ batches.length then
      (batches, kept.reverse ++ u :: rest, vis)
    else if u = "" then
      formGo env cfg failed now dc batches (u :: kept) vis rest
    else if u ∈ vis ∨ cacheHas failed now u then
      formGo env cfg failed now dc batches kept vis rest
    else if cfg.domainConcurrency ≤ (aget dc (getDomain env u)).getD 0 then
      formGo env cfg failed now dc batches (u :: kept) vis rest
    else
      formGo env cfg failed now dc (addToBatch batches (getDomain env u) u)
        kept (vis ++ [u]) rest

/-- Batch formation on a crawl state. -/
def formBatches (env : CrawlEnv) (cfg : Config) (s : CState)
    (failed : List (Url × Nat)) (now : Nat) :
    List (String × List Url) × List Url × List Url :=
  formGo env cfg failed now s.domainCounts [] [] s.visited s.queue

/-- The dispatch loop's domain-counter updates: for each formed batch,
`domainCounts.set(domain, (get ?? 0) + urls.length)`. -/
def dispatchCounts (dc : List (String × Nat)) :
    List (String × List Url) → List (String × Nat)
  | [] => dc
  | (d, us) :: t => dispatchCounts (aset dc d ((aget dc d).getD 0 + us.length)) t

/-- The pieces of per-run state the link-discovery loop mutates. -/
structure EnqSt where
  queue : List Url
  depth : List (Url × Nat)
  seen : List (Url × Nat)
deriving DecidableEq, Repr

/-- One iteration of the link-discovery loop of `processUrl`: normalize
the link (skip when the parse throws), skip when already visited, queued,
failed-cached or seen-cached, otherwise enqueue it, record depth
`d + 1` and mark it seen with the 1-hour TTL. -/
def enqueueLink (env : CrawlEnv) (visited : List Url) (failed : List (Url × Nat))
    (now d : Nat) (es : EnqSt) (link : Url) : EnqSt :=
  match env.normalize link with
  | none => es
  | some nu =>
    if nu ∈ visited ∨ nu ∈ es.queue ∨ cacheHas failed now nu ∨ cacheHas es.seen now nu
    then es
    else ⟨es.queue ++ [nu], aset es.depth nu (d + 1), aset es.seen nu (now + seenTtl)⟩

/-- The whole link-discovery loop. -/
def enqueueLinks (env : CrawlEnv) (visited : List Url) (failed : List (Url × Nat))
    (now d : Nat) (es : EnqSt) (links : List Url) : EnqSt :=
  links.foldl (enqueueLink env visited failed now d) es

/-- State after the post-scrape success block of `processUrl` for URL `u`
of batch `⟨d, n, _⟩`: store the result, bump `pagesProcessed`, and when the
URL's depth is below `maxDepth` and links were extracted, filter and
enqueue them; finally stamp `lastProcessed` and return to the batch loop. -/
def finishOkG (cfg : Config) (env : CrawlEnv) (g : GState)
    (pre post : List Batch) (d : String) (n : Nat) (u : Url) (ud : Nat)
    (rest : List Url) (links : Option (List Url)) : GState :=
  let es0 : EnqSt := ⟨g.crawl.queue, g.crawl.depth, g.seen⟩
  let es :=
    match links with
    | some ls =>
      if ud < cfg.maxDepth then
        enqueueLinks env g.crawl.visited g.failed g.now ud es0 (env.filterLinks ls u)
      else es0
    | none => es0
  { g with
    seen := es.seen,
    crawl := { g.crawl with
      queue := es.queue,
      depth := es.depth,
      results := g.crawl.results ++ [u],
      pagesProcessed := g.crawl.pagesProcessed + 1,
      lastProcessed := aset g.crawl.lastProcessed d g.now,
      inFlight := pre ++ ⟨d, n, BatchTask.idle rest⟩ :: post } }

/-- State after the failure branch of `processUrl` for URL `u`: record the
URL in the failed cache (15-minute TTL), append the error message, stamp
`lastProcessed`, return to the batch loop.  `pagesProcessed` is NOT
touched. -/
def finishErrG (g : GState) (pre post : List Batch) (d : String) (n : Nat)
    (u : Url) (rest : List Url) (msg : String) : GState :=
  { g with
    failed := aset g.failed u (g.now + failedTtl),
    crawl := { g.crawl with
      errors := g.crawl.errors ++ [msg],
      lastProcessed := aset g.crawl.lastProcessed d g.now,
      inFlight := pre ++ ⟨d, n, BatchTask.idle rest⟩ :: post } }

/-- Fresh per-run state: the seed in the queue at depth 0, everything else
empty. -/
def initCState (startUrl : Url) : CState :=
  { visited := [], queue := [startUrl], results := [], errors := [],
    depth := [(startUrl, 0)], pagesProcessed := 0,
    domainCounts := [], lastProcessed := [], inFlight := [] }

/-- Start of a `crawlUrl` invocation on an existing process: the
failed-URL cache is cleared, the seen-URL cache is left as it is, and a
fresh per-run state is built. -/
def initRun (startUrl : Url) (g : GState) : GState :=
  { g with failed := [], crawl := initCState startUrl }

/-- Global state of a fresh process about to crawl `startUrl`. -/
def initG (startUrl : Url) : GState :=
  { seen := [], failed := [], now := 0, crawl := initCState startUrl }

/-- One atomic block of the cooperative event loop. -/
inductive Step (cfg : Config) (env : CrawlEnv) : GState → GState → Prop
  /-- The clock advances (network latency, delay sleeps, timer ticks). -/
  | tick (g : GState) :
      Step cfg env g { g with now := g.now + 1 }
  /-- One main-loop iteration that forms a nonempty set of domain batches
  and dispatches them: the loop guard `pagesProcessed < maxPages ∧ (queue
  nonempty ∨ work in flight)` holds, the formation scan selects `bs`,
  every selected URL is already marked visited, each batch's domain
  counter is raised by its size, and the batches join the in-flight set.
  Iterations whose scan selects nothing change no state (they only await)
  and need no step. -/
  | dispatch (g : GState) (bs : List (String × List Url)) (q2 v2 : List Url)
      (hguard : g.crawl.pagesProcessed < cfg.maxPages)
      (hwork : g.crawl.queue ≠ [] ∨ g.crawl.inFlight ≠ [])
      (hform : formBatches env cfg g.crawl g.failed g.now = (bs, q2, v2))
      (hne : bs ≠ []) :
      Step cfg env g { g with crawl := { g.crawl with
        queue := q2,
        visited := v2,
        domainCounts := dispatchCounts g.crawl.domainCounts bs,
        inFlight := g.crawl.inFlight ++
          bs.map (fun b => ⟨b.1, b.2.length, BatchTask.idle b.2⟩) } }
  /-- A batch reaches its next URL but its recorded depth exceeds
  `maxDepth`: skipped without touching anything else. -/
  | skipDepth (g : GState) (pre post : List Batch) (d : String) (n : Nat)
      (u : Url) (rest : List Url)
      (hif : g.crawl.inFlight = pre ++ ⟨d, n, BatchTask.idle (u :: rest)⟩ :: post)
      (hd : cfg.maxDepth < (aget g.crawl.depth u).getD 0) :
      Step cfg env g { g with crawl := { g.crawl with
        inFlight := pre ++ ⟨d, n, BatchTask.idle rest⟩ :: post } }
  /-- A batch reaches its next URL, the depth check passes, but the URL is
  in the failed cache (`processUrl` returns early); `lastProcessed` is
  still stamped after `processUrl` returns. -/
  | skipFailed (g : GState) (pre post : List Batch) (d : String) (n : Nat)
      (u : Url) (rest : List Url)
      (hif : g.crawl.inFlight = pre ++ ⟨d, n, BatchTask.idle (u :: rest)⟩ :: post)
      (hd : (aget g.crawl.depth u).getD 0 ≤ cfg.maxDepth)
      (hf : cacheHas g.failed g.now u = true) :
      Step cfg env g { g with crawl := { g.crawl with
        lastProcessed := aset g.crawl.lastProcessed d g.now,
        inFlight := pre ++ ⟨d, n, BatchTask.idle rest⟩ :: post } }
  /-- A batch reaches its next URL, the depth and failed-cache checks pass,
  and the unit suspends in the `scrapeUrl` await. -/
  | startScrape (g : GState) (pre post : List Batch) (d : String) (n : Nat)
      (u : Url) (rest : List Url)
      (hif : g.crawl.inFlight = pre ++ ⟨d, n, BatchTask.idle (u :: rest)⟩ :: post)
      (hd : (aget g.crawl.depth u).getD 0 ≤ cfg.maxDepth)
      (hf : cacheHas g.failed g.now u = false) :
      Step cfg env g { g with crawl := { g.crawl with
        inFlight := pre ++
          ⟨d, n, BatchTask.scraping u ((aget g.crawl.depth u).getD 0) rest⟩ :: post } }
  /-- The `scrapeUrl` await resumes with a success result. -/
  | finishOk (g : GState) (pre post : List Batch) (d : String) (n : Nat)
      (u : Url) (ud : Nat) (rest : List Url) (links : Option (List Url))
      (hif : g.crawl.inFlight = pre ++ ⟨d, n, BatchTask.scraping u ud rest⟩ :: post)
      (hres : env.scrape u = ScrapeOutcome.ok links) :
      Step cfg env g (finishOkG cfg env g pre post d n u ud rest links)
  /-- The `scrapeUrl` await resumes with a failure result. -/
  | finishErr (g : GState) (pre post : List Batch) (d : String) (n : Nat)
      (u : Url) (ud : Nat) (rest : List Url) (msg : String)
      (hif : g.crawl.inFlight = pre ++ ⟨d, n, BatchTask.scraping u ud rest⟩ :: post)
      (hres : env.scrape u = ScrapeOutcome.err msg) :
      Step cfg env g (finishErrG g pre post d n u rest msg)
  /-- A batch has processed all its URLs: the `finally` block lowers the
  domain counter by the original batch size (clamped at zero) and the
  settled promise leaves the in-flight set. -/
  | batchDone (g : GState) (pre post : List Batch) (d : String) (n : Nat)
      (hif : g.crawl.inFlight = pre ++ ⟨d, n, BatchTask.idle []⟩ :: post) :
      Step cfg env g { g with crawl := { g.crawl with
        domainCounts := aset g.crawl.domainCounts d
          ((aget g.crawl.domainCounts d).getD 0 - n),
        inFlight := pre ++ post } }

/-- Reachability along atomic blocks. -/
def Reach (cfg : Config) (env : CrawlEnv) : GState → GState → Prop :=
  Relation.ReflTransGen (Step cfg env)

/-- The crawl result object `crawlUrl` builds after the main loop exits
and the remaining promises settle. -/
structure CrawlResult where
  success : Bool
  status : String
  total : Nat
  completed : Nat
  remaining : Nat
deriving DecidableEq, Repr

/-- Construction of the returned result object. -/
def mkResult (s : CState) : CrawlResult :=
  { success := s.errors.isEmpty,
    status := if s.queue.isEmpty then "completed" else "incomplete",
    total := s.visited.length + s.queue.length,
    completed := s.pagesProcessed,
    remaining := s.queue.length }

/-- A run is over: nothing is in flight and the main loop cannot continue
(budget reached, queue drained, or the scan can select nothing). -/
def Terminal (cfg : Config) (env : CrawlEnv) (g : GState) : Prop :=
  g.crawl.inFlight = [] ∧
    (cfg.maxPages ≤ g.crawl.pagesProcessed ∨ g.crawl.queue = [] ∨
      (formBatches env cfg g.crawl g.failed g.now).1 = [])

/-- Number of URLs dispatched and not yet terminal in one batch. -/
def taskLoad : BatchTask → Nat
  | BatchTask.idle l => l.length
  | BatchTask.scraping _ _ l => l.length + 1

/-- Number of URLs dispatched and not yet terminal in a batch list. -/
def flightL (l : List Batch) : Nat :=
  (l.map (fun b => taskLoad b.task)).sum

/-- Number of URLs dispatched and not yet terminal (in flight). -/
def flightUrls (s : CState) : Nat := flightL s.inFlight

/-- Total number of URLs across a list of formed domain batches. -/
def batchTotal (bs : List (String × List Url)) : Nat :=
  (bs.map (fun p => p.2.length)).sum

/-- The URLs a dispatched batch still owes a terminal outcome. -/
def batchUrls (b : Batch) : List Url :=
  match b.task with
  | BatchTask.idle l => l
  | BatchTask.scraping u _ l => u :: l

/-- The structural invariant behind depth-write-once: every URL with a
recorded depth is still queued or already visited, every failed-cache
entry belongs to a visited URL, and every URL owed by an in-flight batch
is visited. -/
def DepthInv (g : GState) : Prop :=
  (∀ u, (aget g.crawl.depth u).isSome = true → u ∈ g.crawl.queue ∨ u ∈ g.crawl.visited) ∧
  (∀ u, (aget g.failed u).isSome = true → u ∈ g.crawl.visited) ∧
  (∀ b ∈ g.crawl.inFlight, ∀ u ∈ batchUrls b, u ∈ g.crawl.visited)

/-!
Concrete run A: a site whose seed page links to three same-domain pages,
crawled with `maxPages := 2`.  All scrapes succeed.  This run exercises
both the budget overshoot (the second dispatched batch carries three URLs
and the batch loop has no budget check) and the domain-counter overshoot
(one formation pass selects three URLs of one domain against
`domainConcurrency = 2`).
-/

/-- Seed URL of run A. -/
def seedU : Url := "https://a.test/"

/-- First discovered link of run A. -/
def u1 : Url := "https://a.test/1"

/-- Second discovered link of run A. -/
def u2 : Url := "https://a.test/2"

/-- Third discovered link of run A. -/
def u3 : Url := "https://a.test/3"

/-- Environment of run A: every URL parses to host `a.test` and normalizes
to itself; the seed page yields three links, the others none; the link
filter passes everything (no patterns, same domain). -/
def env1 : CrawlEnv :=
  { host := fun _ => some "a.test",
    normalize := fun u => some u,
    scrape := fun u =>
      if u = seedU then ScrapeOutcome.ok (some [u1, u2, u3])
      else ScrapeOutcome.ok none,
    filterLinks := fun ls _ => ls }

/-- Options of run A: defaults except `maxPages := 2`. -/
def cfg1 : Config := { maxDepth := 3, maxPages := 2, concurrency := 5, domainConcurrency := 2 }

/-- Run A after the first dispatch (the seed batch). -/
def runA1 : GState :=
  { seen := [], failed := [], now := 0,
    crawl :=
      { visited := [seedU], queue := [], results := [], errors := [],
        depth := [(seedU, 0)], pagesProcessed := 0,
        domainCounts := [("a.test", 1)], lastProcessed := [],
        inFlight := [⟨"a.test", 1, BatchTask.idle [seedU]⟩] } }

/-- Run A while the seed is in its `scrapeUrl` await. -/
def runA2 : GState :=
  { runA1 with crawl := { runA1.crawl with
      inFlight := [⟨"a.test", 1, BatchTask.scraping seedU 0 []⟩] } }

/-- Run A after the seed's success block enqueued the three links. -/
def runA3 : GState := finishOkG cfg1 env1 runA2 [] [] "a.test" 1 seedU 0 [] (some [u1, u2, u3])

/-- Run A after the seed batch's `finally` decrement. -/
def runA4 : GState :=
  { runA3 with crawl := { runA3.crawl with
      domainCounts := aset runA3.crawl.domainCounts "a.test"
        ((aget runA3.crawl.domainCounts "a.test").getD 0 - 1),
      inFlight := [] } }

/-- Run A right after the second dispatch: one formation pass selected all
three `a.test` URLs into a single batch, so the recorded in-flight count
for `a.test` is 3 although `domainConcurrency` is 2. -/
def runA5 : GState :=
  { runA4 with crawl := { runA4.crawl with
      queue := [], visited := [seedU, u1, u2, u3],
      domainCounts := dispatchCounts runA4.crawl.domainCounts [("a.test", [u1, u2, u3])],
      inFlight := [⟨"a.test", 3, BatchTask.idle [u1, u2, u3]⟩] } }

/-- Run A: first batched link in its scrape await. -/
def runA6 : GState :=
  { runA5 with crawl := { runA5.crawl with
      inFlight := [⟨"a.test", 3, BatchTask.scraping u1 1 [u2, u3]⟩] } }

/-- Run A after the first batched link succeeded (`pagesProcessed = 2`,
the budget, with two URLs still owed by the in-flight batch). -/
def runA7 : GState := finishOkG cfg1 env1 runA6 [] [] "a.test" 3 u1 1 [u2, u3] none

/-- Run A: second batched link in its scrape await. -/
def runA8 : GState :=
  { runA7 with crawl := { runA7.crawl with
      inFlight := [⟨"a.test", 3, BatchTask.scraping u2 1 [u3]⟩] } }

/-- Run A after the second batched link succeeded (`pagesProcessed = 3`,
already past the budget). -/
def runA9 : GState := finishOkG cfg1 env1 runA8 [] [] "a.test" 3 u2 1 [u3] none

/-- Run A: third batched link in its scrape await. -/
def runA10 : GState :=
  { runA9 with crawl := { runA9.crawl with
      inFlight := [⟨"a.test", 3, BatchTask.scraping u3 1 []⟩] } }

/-- Run A after the third batched link succeeded. -/
def runA11 : GState := finishOkG cfg1 env1 runA10 [] [] "a.test" 3 u3 1 [] none

/-- Run A final state: batch settled, nothing in flight, queue empty,
`pagesProcessed = 4` against `maxPages = 2`. -/
def runA12 : GState :=
  { runA11 with crawl := { runA11.crawl with
      domainCounts := aset runA11.crawl.domainCounts "a.test"
        ((aget runA11.crawl.domainCounts "a.test").getD 0 - 3),
      inFlight := [] } }

/-!
Concrete run B: a seed whose scrape fails (HTTP 500).  The URL reaches a
terminal failure outcome, is recorded in `errors` and the failed cache,
but `pagesProcessed` stays 0.
-/

/-- Seed URL of run B. -/
def seedB : Url := "https://b.test/"

/-- Error message run B's scrape produces. -/
def errB : String := "Failed to scrape https://b.test/: HTTP error! Status: 500"

/-- Environment of run B: every scrape fails. -/
def env3 : CrawlEnv :=
  { host := fun _ => some "b.test",
    normalize := fun u => some u,
    scrape := fun _ => ScrapeOutcome.err errB,
    filterLinks := fun ls _ => ls }

/-- Run B after its only dispatch. -/
def runB1 : GState :=
  { seen := [], failed := [], now := 0,
    crawl :=
      { visited := [seedB], queue := [], results := [], errors := [],
        depth := [(seedB, 0)], pagesProcessed := 0,
        domainCounts := [("b.test", 1)], lastProcessed := [],
        inFlight := [⟨"b.test", 1, BatchTask.idle [seedB]⟩] } }

/-- Run B while the seed is in its scrape await. -/
def runB2 : GState :=
  { runB1 with crawl := { runB1.crawl with
      inFlight := [⟨"b.test", 1, BatchTask.scraping seedB 0 []⟩] } }

/-- Run B after the failure branch of `processUrl`. -/
def runB3 : GState := finishErrG runB2 [] [] "b.test" 1 seedB [] errB

/-- Run B final state: one visited URL with a terminal failure outcome,
`pagesProcessed = 0`, nothing in flight. -/
def runB4 : GState :=
  { runB3 with crawl := { runB3.crawl with
      domainCounts := aset runB3.crawl.domainCounts "b.test"
        ((aget runB3.crawl.domainCounts "b.test").getD 0 - 1),
      inFlight := [] } }

/-- Module state left by an earlier crawl: the seen-URL cache still holds
an entry for `u1` (expiry 5) when a second run starts. -/
def gmC10 : GState :=
  { seen := [(u1, 5)], failed := [], now := 0, crawl := initCState seedU }

end Crawl

/-!
Concrete fetch environments for the fetcher claims.
-/

/-- Metrics of a script-rendered shell page: no text, no structure, five
script tags (drives `needsJavaScript = true` on the general path). -/
def shellMetrics : Metrics := ⟨0, 0, 0, 0, 0, 0, 5, 0⟩

/-- Fetch environment where the lightweight fetch of an unknown SPA-like
domain succeeds with a small shell, detection demands rendering, and the
heavy-render step's own fetch and render both succeed with richer
content. -/
def envEsc : FetchEnv :=
  { url := "https://spa.test/",
    hostname := some "spa.test",
    simpleCalls := fun n =>
      if n = 0 then Except.ok ⟨"<div id=app></div>", 200⟩
      else Except.ok ⟨"<div id=app>big rendered content here</div>", 200⟩,
    render := fun h => Except.ok h,
    metricsOf := fun _ => shellMetrics }

/-- Fetch environment for a known-JS-heavy domain (`bun.sh`) whose
lightweight fetch fails while the heavy-render path would succeed. -/
def envHeavyFail : FetchEnv :=
  { url := "https://bun.sh/docs",
    hostname := some "bun.sh",
    simpleCalls := fun n =>
      if n = 0 then Except.error "Failed to fetch https://bun.sh/docs: network down"
      else Except.ok ⟨"<html>docs</html>", 200⟩,
    render := fun h => Except.ok h,
    metricsOf := fun _ => shellMetrics }

/-- Fetch environment where detection demands rendering but the renderer
produces less content than the lightweight fetch (the reject case of the
10 percent rule). -/
def envReject : FetchEnv :=
  { url := "https://small.test/",
    hostname := some "small.test",
    simpleCalls := fun n =>
      if n = 0 then Except.ok ⟨"aaaa", 200⟩
      else Except.ok ⟨"aaa", 200⟩,
    render := fun h => Except.ok h,
    metricsOf := fun _ => shellMetrics }

/-- Fetch environment on the general path whose lightweight fetch fails
twice (so the heavy fallback fails as well). -/
def envBothFail : FetchEnv :=
  { url := "https://down.test/",
    hostname := some "down.test",
    simpleCalls := fun _ => Except.error "Failed to fetch https://down.test/: ECONNREFUSED",
    render := fun h => Except.ok h,
    metricsOf := fun _ => shellMetrics }

/-- Metrics with one lazy-load attribute and otherwise rich content. -/
def lazyMetrics : Metrics := ⟨1000, 10, 3, 2, 20, 5, 1, 1⟩

/-- Spec-side predicate: the page has substantial content (visible text
longer than 500, or more than 2 paragraphs with a link and a heading or
content container). -/
def specSubstantial (m : Metrics) : Prop :=
  500 < m.textLength ∨
    (2 < m.paragraphs ∧ 1 ≤ m.links ∧ (1 ≤ m.headings ∨ 1 ≤ m.contentElements))

/-- Spec-side predicate: the page is a likely script-rendered shell (text
below 200, fewer than 2 paragraphs, no headings, more than 3 script
tags). -/
def specShell (m : Metrics) : Prop :=
  m.textLength < 200 ∧ m.paragraphs < 2 ∧ m.headings = 0 ∧ 3 < m.scripts

/-- Spec-side predicate: at least one element carries a lazy-load
attribute. -/
def specLazy (m : Metrics) : Prop := 1 ≤ m.lazyLoadElements

/-!
Theorems.  First the fetcher claims (C5 to C8), then the scheduler claims
(C1 to C4, C9, C10).
-/

/-- C8.  For every page not short-circuited by the known-domain tables,
`detectContentType` demands rendering exactly when the page is not
substantial and looks like a script-rendered shell, or lazy-load
attributes are present, with the three predicates exactly as the spec
words them. -/
theorem claim8_detection_formula (hn : Option String) (m : Metrics)
    (h : quickContentTypeCheck hn = none) :
    (detectContentType hn m).needsJavaScript = true ↔
      ((¬ specSubstantial m ∧ specShell m) ∨ specLazy m) := by
  simp only [detectContentType, h]
  simp only [specSubstantial, specShell, specLazy, Bool.or_eq_true, Bool.and_eq_true,
    Bool.not_eq_true', Bool.or_eq_false_iff, Bool.and_eq_false_iff,
    decide_eq_true_eq, decide_eq_false_iff_not]
  omega

/-- Witness for C8 at a concrete page with a lazy-load attribute. -/
theorem claim8_witness :
    (detectContentType none lazyMetrics).needsJavaScript = true ↔
      ((¬ specSubstantial lazyMetrics ∧ specShell lazyMetrics) ∨ specLazy lazyMetrics) :=
  claim8_detection_formula none lazyMetrics rfl

/-- Path lemma: known-static domain with a successful lightweight fetch. -/
theorem smartFetch_known_static (env : FetchEnv) (r : SimpleResult)
    (hq : quickContentTypeCheck env.hostname = some false)
    (h0 : env.simpleCalls 0 = Except.ok r) :
    smartFetch env = (Except.ok ⟨r.html, r.status, false⟩, 1) := by
  simp [smartFetch, hq, simpleFetchOp, h0]

/-- Path lemma: known-heavy domain with a successful lightweight fetch
reduces to the guarded JSDOM comparison. -/
theorem smartFetch_known_heavy_ok (env : FetchEnv) (r : SimpleResult)
    (hq : quickContentTypeCheck env.hostname = some true)
    (h0 : env.simpleCalls 0 = Except.ok r) :
    smartFetch env =
      match jsDomFetch env 1 with
      | (Except.ok j, n2) =>
        if 11 * r.html.length < 10 * j.html.length then
          (Except.ok ⟨j.html, j.status, true⟩, n2)
        else (Except.ok ⟨r.html, r.status, false⟩, n2)
      | (Except.error _, n2) => (Except.ok ⟨r.html, r.status, false⟩, n2) := by
  rcases hjd : jsDomFetch env 1 with ⟨jres, n2⟩
  rcases jres with e2 | j <;>
    simp [smartFetch, hq, simpleFetchOp, h0, hjd]

/-- Path lemma: on either known-domain fast path a lightweight failure
propagates as is, without any heavy-render attempt. -/
theorem smartFetch_known_err (env : FetchEnv) (b : Bool) (e : String)
    (hq : quickContentTypeCheck env.hostname = some b)
    (h0 : env.simpleCalls 0 = Except.error e) :
    smartFetch env = (Except.error e, 1) := by
  rcases b with _ | _ <;> simp [smartFetch, hq, simpleFetchOp, h0]

/-- Path lemma: general path, successful lightweight fetch, detection
demands rendering. -/
theorem smartFetch_general_needs (env : FetchEnv) (r : SimpleResult)
    (hq : quickContentTypeCheck env.hostname = none)
    (h0 : env.simpleCalls 0 = Except.ok r)
    (hdet : (detectContentType env.hostname (env.metricsOf r.html)).needsJavaScript = true) :
    smartFetch env =
      match jsDomFetch env 1 with
      | (Except.ok j, n2) =>
        if 11 * r.html.length < 10 * j.html.length then
          (Except.ok ⟨j.html, j.status, true⟩, n2)
        else (Except.ok ⟨r.html, r.status, false⟩, n2)
      | (Except.error _, n2) => (Except.ok ⟨r.html, r.status, false⟩, n2) := by
  rcases hjd : jsDomFetch env 1 with ⟨jres, n2⟩
  rcases jres with e2 | j <;>
    simp [smartFetch, hq, simpleFetchOp, h0, hdet, hjd]

/-- Path lemma: general path, successful lightweight fetch, detection
content is static. -/
theorem smartFetch_general_static (env : FetchEnv) (r : SimpleResult)
    (hq : quickContentTypeCheck env.hostname = none)
    (h0 : env.simpleCalls 0 = Except.ok r)
    (hdet : (detectContentType env.hostname (env.metricsOf r.html)).needsJavaScript = false) :
    smartFetch env = (Except.ok ⟨r.html, r.status, false⟩, 1) := by
  simp [smartFetch, hq, simpleFetchOp, h0, hdet]

/-- Path lemma: general path with a failing lightweight fetch reduces to
the JSDOM last-resort attempt. -/
theorem smartFetch_general_err (env : FetchEnv) (e : String)
    (hq : quickContentTypeCheck env.hostname = none)
    (h0 : env.simpleCalls 0 = Except.error e) :
    smartFetch env =
      match jsDomFetch env 1 with
      | (Except.ok j, n2) => (Except.ok ⟨j.html, j.status, true⟩, n2)
      | (Except.error _, n2) =>
        (Except.error ("Failed to fetch " ++ env.url ++ ": " ++ e), n2) := by
  rcases hjd : jsDomFetch env 1 with ⟨jres, n2⟩
  rcases jres with e2 | j <;>
    simp [smartFetch, hq, simpleFetchOp, h0, hjd]

/-- The heavy-render step always consumes exactly one network fetch. -/
theorem jsDomFetch_snd (env : FetchEnv) (n : Nat) : (jsDomFetch env n).2 = n + 1 := by
  rcases h1 : env.simpleCalls n with e | r
  · simp [jsDomFetch, simpleFetchOp, h1]
  · rcases hr : env.render r.html with e2 | h2 <;> simp [jsDomFetch, simpleFetchOp, h1, hr]

/-- Fallback conclusions when smartFetch returns the lightweight result
unconditionally. -/
theorem render_fallback_of_light (env : FetchEnv) (r : SimpleResult) (n : Nat)
    (hm : smartFetch env = (Except.ok ⟨r.html, r.status, false⟩, n)) :
    ((∀ j, (jsDomFetch env 1).1 = Except.ok j → 10 * j.html.length ≤ 11 * r.html.length) →
      (smartFetch env).1 = Except.ok ⟨r.html, r.status, false⟩) ∧
    (∀ z, (smartFetch env).1 = Except.ok z → z.usedJsdom = true →
      ∃ j, (jsDomFetch env 1).1 = Except.ok j ∧ z.html = j.html ∧
        11 * r.html.length < 10 * j.html.length) := by
  constructor
  · intro _
    rw [hm]
  · intro z hz hu
    rw [hm] at hz
    injection hz with h
    rw [← h] at hu
    simp at hu

/-- Fallback conclusions when smartFetch reduces to the guarded JSDOM
comparison against lightweight result `r`. -/
theorem render_fallback_of_match (env : FetchEnv) (r : SimpleResult)
    (hm : smartFetch env =
      match jsDomFetch env 1 with
      | (Except.ok j, n2) =>
        if 11 * r.html.length < 10 * j.html.length then
          (Except.ok ⟨j.html, j.status, true⟩, n2)
        else (Except.ok ⟨r.html, r.status, false⟩, n2)
      | (Except.error _, n2) => (Except.ok ⟨r.html, r.status, false⟩, n2)) :
    ((∀ j, (jsDomFetch env 1).1 = Except.ok j → 10 * j.html.length ≤ 11 * r.html.length) →
      (smartFetch env).1 = Except.ok ⟨r.html, r.status, false⟩) ∧
    (∀ z, (smartFetch env).1 = Except.ok z → z.usedJsdom = true →
      ∃ j, (jsDomFetch env 1).1 = Except.ok j ∧ z.html = j.html ∧
        11 * r.html.length < 10 * j.html.length) := by
  rcases hjd : jsDomFetch env 1 with ⟨jres, n2⟩
  rcases jres with e2 | j
  · simp only [hjd] at hm
    constructor
    · intro _
      rw [hm]
    · intro z hz hu
      rw [hm] at hz
      injection hz with h
      rw [← h] at hu
      simp at hu
  · simp only [hjd] at hm
    constructor
    · intro hsmall
      have hle := hsmall j rfl
      rw [if_neg (by omega)] at hm
      rw [hm]
    · intro z hz hu
      rw [hm] at hz
      by_cases hc : 11 * r.html.length < 10 * j.html.length
      · rw [if_pos hc] at hz
        injection hz with h
        exact ⟨j, rfl, by rw [← h], hc⟩
      · rw [if_neg hc] at hz
        injection hz with h
        rw [← h] at hu
        simp at hu

/-- C6.  When the lightweight fetch succeeds with result `r`, smartFetch
returns the lightweight content with `usedJsdom = false` whenever every
successful heavy-render outcome carries at most 10 percent more content
(`10 * jsdomLen ≤ 11 * lightLen`), and conversely any returned result with
`usedJsdom = true` carries the heavy-render HTML and strictly exceeds the
10 percent threshold.  The statement covers the known-static, known-heavy
and general detection paths at once: the heavy-render call, when one is
made, is always `jsDomFetch env 1`. -/
theorem claim6_render_fallback (env : FetchEnv) (r : SimpleResult)
    (h0 : env.simpleCalls 0 = Except.ok r) :
    ((∀ j, (jsDomFetch env 1).1 = Except.ok j → 10 * j.html.length ≤ 11 * r.html.length) →
      (smartFetch env).1 = Except.ok ⟨r.html, r.status, false⟩) ∧
    (∀ z, (smartFetch env).1 = Except.ok z → z.usedJsdom = true →
      ∃ j, (jsDomFetch env 1).1 = Except.ok j ∧ z.html = j.html ∧
        11 * r.html.length < 10 * j.html.length) := by
  rcases hq : quickContentTypeCheck env.hostname with _ | b
  · rcases hdet : (detectContentType env.hostname (env.metricsOf r.html)).needsJavaScript with _ | _
    · exact render_fallback_of_light env r 1 (smartFetch_general_static env r hq h0 hdet)
    · exact render_fallback_of_match env r (smartFetch_general_needs env r hq h0 hdet)
  · rcases b with _ | _
    · exact render_fallback_of_light env r 1 (smartFetch_known_static env r hq h0)
    · exact render_fallback_of_match env r (smartFetch_known_heavy_ok env r hq h0)

/-- Witness for C6 at a concrete environment where detection demands
rendering but the renderer yields less content than the lightweight
fetch. -/
theorem claim6_witness :
    (smartFetch envReject).1 = Except.ok ⟨"aaaa", 200, false⟩ := by
  apply (claim6_render_fallback envReject ⟨"aaaa", 200⟩ rfl).1
  intro j hj
  have hj2 : Except.ok (⟨"aaa", 200⟩ : SimpleResult) = Except.ok j := hj
  injection hj2 with h2
  rw [← h2]
  decide

/-- C5 counterexample.  On the general path with a successful lightweight
fetch and detection demanding rendering, the escalation issues a second
network fetch of the URL: the final fetch counter is 2, not 1, because
`jsDomFetch` performs its own `simpleFetch` instead of being seeded with
the HTML `smartFetch` already fetched.  (The render here even succeeds and
is accepted, so the renderer genuinely ran — seeded with the second
fetch's HTML.) -/
theorem claim5_counterexample :
    (smartFetch envEsc).2 = 2 ∧
    envEsc.simpleCalls 0 = Except.ok ⟨"<div id=app></div>", 200⟩ ∧
    (smartFetch envEsc).1 =
      Except.ok ⟨"<div id=app>big rendered content here</div>", 200, true⟩ :=
  ⟨rfl, rfl, rfl⟩

/-- C5 amended.  The renderer is seeded with the HTML of a fresh
lightweight fetch performed inside the heavy-render step itself (call
index 1), and issues no further fetch of the URL beyond that one; hence
escalation after a successful lightweight fetch performs exactly two
network fetches of the URL in total. -/
theorem claim5_amended_seeded_fetch (env : FetchEnv) :
    (∀ r1 h, env.simpleCalls 1 = Except.ok r1 → env.render r1.html = Except.ok h →
      jsDomFetch env 1 = (Except.ok ⟨h, 200⟩, 2)) ∧
    (∀ r0, env.simpleCalls 0 = Except.ok r0 →
      quickContentTypeCheck env.hostname = none →
      (detectContentType env.hostname (env.metricsOf r0.html)).needsJavaScript = true →
      (smartFetch env).2 = 2) := by
  constructor
  · intro r1 h h1 hr
    simp [jsDomFetch, simpleFetchOp, h1, hr]
  · intro r0 h0 hq hdet
    have hm := smartFetch_general_needs env r0 hq h0 hdet
    rcases hjd : jsDomFetch env 1 with ⟨jres, n2⟩
    have h2 : n2 = 2 := by
      have h3 := jsDomFetch_snd env 1
      rw [hjd] at h3
      exact h3
    subst h2
    rcases jres with e | j
    · simp only [hjd] at hm
      rw [hm]
    · simp only [hjd] at hm
      rw [hm]
      split <;> rfl

/-- Witness for C5 amended at the concrete escalation environment. -/
theorem claim5_amended_witness :
    jsDomFetch envEsc 1 =
      (Except.ok ⟨"<div id=app>big rendered content here</div>", 200⟩, 2) :=
  (claim5_amended_seeded_fetch envEsc).1
    ⟨"<div id=app>big rendered content here</div>", 200⟩
    "<div id=app>big rendered content here</div>" rfl rfl

/-- C7 counterexample.  On the known-heavy-domain fast path (`bun.sh`), a
lightweight fetch failure is thrown immediately: smartFetch surfaces the
error although the heavy-render fallback was never attempted — and would
in fact have succeeded in this environment. -/
theorem claim7_counterexample :
    (smartFetch envHeavyFail).1 =
      Except.error "Failed to fetch https://bun.sh/docs: network down" ∧
    (jsDomFetch envHeavyFail 1).1 = Except.ok ⟨"<html>docs</html>", 200⟩ :=
  ⟨rfl, rfl⟩

/-- C7 amended.  Whenever the lightweight fetch succeeds, smartFetch never
propagates a heavy-render failure (it always returns a result).  On the
general path (URL not in the known-domain tables), a lightweight failure
leads to the heavy-render fallback, and smartFetch throws only when that
also fails, surfacing the original lightweight error (re-wrapped); on the
known-domain fast paths a lightweight failure propagates immediately
without attempting the fallback, as the counterexample shows. -/
theorem claim7_amended_error_propagation (env : FetchEnv) :
    (∀ r, env.simpleCalls 0 = Except.ok r → ∃ z, (smartFetch env).1 = Except.ok z) ∧
    (quickContentTypeCheck env.hostname = none →
      ∀ e, env.simpleCalls 0 = Except.error e →
        (∃ j, (jsDomFetch env 1).1 = Except.ok j ∧
          (smartFetch env).1 = Except.ok ⟨j.html, j.status, true⟩) ∨
        (∃ e2, (jsDomFetch env 1).1 = Except.error e2 ∧
          (smartFetch env).1 =
            Except.error ("Failed to fetch " ++ env.url ++ ": " ++ e))) := by
  constructor
  · intro r h0
    rcases hq : quickContentTypeCheck env.hostname with _ | b
    · rcases hdet : (detectContentType env.hostname (env.metricsOf r.html)).needsJavaScript with _ | _
      · exact ⟨_, by rw [smartFetch_general_static env r hq h0 hdet]⟩
      · have hm := smartFetch_general_needs env r hq h0 hdet
        rcases hjd : jsDomFetch env 1 with ⟨jres, n2⟩
        rcases jres with e | j
        · simp only [hjd] at hm
          exact ⟨_, by rw [hm]⟩
        · simp only [hjd] at hm
          by_cases hc : 11 * r.html.length < 10 * j.html.length
          · rw [if_pos hc] at hm
            exact ⟨_, by rw [hm]⟩
          · rw [if_neg hc] at hm
            exact ⟨_, by rw [hm]⟩
    · rcases b with _ | _
      · exact ⟨_, by rw [smartFetch_known_static env r hq h0]⟩
      · have hm := smartFetch_known_heavy_ok env r hq h0
        rcases hjd : jsDomFetch env 1 with ⟨jres, n2⟩
        rcases jres with e | j
        · simp only [hjd] at hm
          exact ⟨_, by rw [hm]⟩
        · simp only [hjd] at hm
          by_cases hc : 11 * r.html.length < 10 * j.html.length
          · rw [if_pos hc] at hm
            exact ⟨_, by rw [hm]⟩
          · rw [if_neg hc] at hm
            exact ⟨_, by rw [hm]⟩
  · intro hq e h0
    have hm := smartFetch_general_err env e hq h0
    rcases hjd : jsDomFetch env 1 with ⟨jres, n2⟩
    rcases jres with e2 | j
    · simp only [hjd] at hm
      exact Or.inr ⟨e2, rfl, by rw [hm]⟩
    · simp only [hjd] at hm
      exact Or.inl ⟨j, rfl, by rw [hm]⟩

/-- Witness for C7 amended at the environment where both strategies fail:
the surfaced error wraps the original lightweight message. -/
theorem claim7_amended_witness :
    (∃ j, (jsDomFetch envBothFail 1).1 = Except.ok j ∧
      (smartFetch envBothFail).1 = Except.ok ⟨j.html, j.status, true⟩) ∨
    (∃ e2, (jsDomFetch envBothFail 1).1 = Except.error e2 ∧
      (smartFetch envBothFail).1 =
        Except.error ("Failed to fetch " ++ envBothFail.url ++ ": " ++
          "Failed to fetch https://down.test/: ECONNREFUSED")) :=
  (claim7_amended_error_propagation envBothFail).2 rfl
    "Failed to fetch https://down.test/: ECONNREFUSED" rfl

namespace Crawl

/-!
Scheduler theorems.  First the two concrete traces as step chains, then
the claims.
-/

/-- Run A: dispatch of the seed batch. -/
theorem stepA0 : Step cfg1 env1 (initG seedU) runA1 :=
  Step.dispatch (initG seedU) [("a.test", [seedU])] [] [seedU]
    (by decide) (Or.inl (by decide)) rfl (by decide)

/-- Run A: the seed reaches its scrape await. -/
theorem stepA1 : Step cfg1 env1 runA1 runA2 :=
  Step.startScrape runA1 [] [] "a.test" 1 seedU [] rfl (by decide) rfl

/-- Run A: the seed succeeds and enqueues its three links. -/
theorem stepA2 : Step cfg1 env1 runA2 runA3 :=
  Step.finishOk runA2 [] [] "a.test" 1 seedU 0 [] (some [u1, u2, u3]) rfl rfl

/-- Run A: the seed batch settles. -/
theorem stepA3 : Step cfg1 env1 runA3 runA4 :=
  Step.batchDone runA3 [] [] "a.test" 1 rfl

/-- Run A: the second formation pass pulls all three same-domain links
into one batch (the budget still shows 1 of 2 pages, so the guard holds;
the per-domain counter is 0 at formation time and jumps to 3). -/
theorem stepA4 : Step cfg1 env1 runA4 runA5 :=
  Step.dispatch runA4 [("a.test", [u1, u2, u3])] [] [seedU, u1, u2, u3]
    (by decide) (Or.inl (by decide)) rfl (by decide)

/-- Run A: first batched link reaches its scrape await. -/
theorem stepA5 : Step cfg1 env1 runA5 runA6 :=
  Step.startScrape runA5 [] [] "a.test" 3 u1 [u2, u3] rfl (by decide) rfl

/-- Run A: first batched link succeeds (budget now exactly reached). -/
theorem stepA6 : Step cfg1 env1 runA6 runA7 :=
  Step.finishOk runA6 [] [] "a.test" 3 u1 1 [u2, u3] none rfl rfl

/-- Run A: second batched link reaches its scrape await — the batch loop
has no budget check. -/
theorem stepA7 : Step cfg1 env1 runA7 runA8 :=
  Step.startScrape runA7 [] [] "a.test" 3 u2 [u3] rfl (by decide) rfl

/-- Run A: second batched link succeeds (budget exceeded). -/
theorem stepA8 : Step cfg1 env1 runA8 runA9 :=
  Step.finishOk runA8 [] [] "a.test" 3 u2 1 [u3] none rfl rfl

/-- Run A: third batched link reaches its scrape await. -/
theorem stepA9 : Step cfg1 env1 runA9 runA10 :=
  Step.startScrape runA9 [] [] "a.test" 3 u3 [] rfl (by decide) rfl

/-- Run A: third batched link succeeds. -/
theorem stepA10 : Step cfg1 env1 runA10 runA11 :=
  Step.finishOk runA10 [] [] "a.test" 3 u3 1 [] none rfl rfl

/-- Run A: the three-URL batch settles. -/
theorem stepA11 : Step cfg1 env1 runA11 runA12 :=
  Step.batchDone runA11 [] [] "a.test" 3 rfl

/-- Run A is reachable up to the overfull dispatch. -/
theorem reach_runA5 : Reach cfg1 env1 (initG seedU) runA5 :=
  Relation.ReflTransGen.head stepA0 (Relation.ReflTransGen.head stepA1
    (Relation.ReflTransGen.head stepA2 (Relation.ReflTransGen.head stepA3
      (Relation.ReflTransGen.single stepA4))))

/-- Run A runs to completion. -/
theorem reach_runA12 : Reach cfg1 env1 (initG seedU) runA12 :=
  Relation.ReflTransGen.trans reach_runA5
    (Relation.ReflTransGen.head stepA5 (Relation.ReflTransGen.head stepA6
      (Relation.ReflTransGen.head stepA7 (Relation.ReflTransGen.head stepA8
        (Relation.ReflTransGen.head stepA9 (Relation.ReflTransGen.head stepA10
          (Relation.ReflTransGen.single stepA11)))))))

/-- Run B: dispatch of the failing seed. -/
theorem stepB0 : Step cfg1 env3 (initG seedB) runB1 :=
  Step.dispatch (initG seedB) [("b.test", [seedB])] [] [seedB]
    (by decide) (Or.inl (by decide)) rfl (by decide)

/-- Run B: the seed reaches its scrape await. -/
theorem stepB1 : Step cfg1 env3 runB1 runB2 :=
  Step.startScrape runB1 [] [] "b.test" 1 seedB [] rfl (by decide) rfl

/-- Run B: the seed's scrape fails; the URL is cached as failed and the
error recorded, without touching `pagesProcessed`. -/
theorem stepB2 : Step cfg1 env3 runB2 runB3 :=
  Step.finishErr runB2 [] [] "b.test" 1 seedB 0 [] errB rfl rfl

/-- Run B: the batch settles. -/
theorem stepB3 : Step cfg1 env3 runB3 runB4 :=
  Step.batchDone runB3 [] [] "b.test" 1 rfl

/-- Run B runs to completion. -/
theorem reach_runB4 : Reach cfg1 env3 (initG seedB) runB4 :=
  Relation.ReflTransGen.head stepB0 (Relation.ReflTransGen.head stepB1
    (Relation.ReflTransGen.head stepB2 (Relation.ReflTransGen.single stepB3)))

/-- C1 counterexample.  A complete run with `maxPages = 2` that returns
`completed = 4`: the second dispatch put three same-domain URLs into one
in-flight batch while the budget had room for one more page, and the
batch loop processes all of them without re-checking the budget. -/
theorem claim1_counterexample :
    Reach cfg1 env1 (initG seedU) runA12 ∧ Terminal cfg1 env1 runA12 ∧
    (mkResult runA12.crawl).completed = 4 ∧ cfg1.maxPages = 2 :=
  ⟨reach_runA12, ⟨rfl, Or.inr (Or.inl rfl)⟩, rfl, rfl⟩

/-- C2 counterexample.  Reachable state in which the recorded in-flight
count for domain `a.test` is 3 although `domainConcurrency = 2`: the
formation pass checks the counter against the map as it was before the
pass and only updates it at dispatch. -/
theorem claim2_counterexample :
    Reach cfg1 env1 (initG seedU) runA5 ∧
    aget runA5.crawl.domainCounts "a.test" = some 3 ∧
    cfg1.domainConcurrency = 2 :=
  ⟨reach_runA5, rfl, rfl⟩

/-- C3 counterexample.  A complete run in which exactly one URL reached a
terminal outcome — a failure, recorded in `errors` — yet the returned
`completed` is 0: failures do not increment `pagesProcessed`. -/
theorem claim3_counterexample :
    Reach cfg1 env3 (initG seedB) runB4 ∧ Terminal cfg1 env3 runB4 ∧
    runB4.crawl.visited = [seedB] ∧ runB4.crawl.errors.length = 1 ∧
    (mkResult runB4.crawl).completed = 0 :=
  ⟨reach_runB4, ⟨rfl, Or.inr (Or.inl rfl)⟩, rfl, rfl, rfl⟩

/-- C4 counterexample.  At the end of run B one URL is marked visited but
`pagesProcessed + inFlight = 0`: a URL that fails (or is skipped) stays
visited without being counted, so the claimed equality fails. -/
theorem claim4_counterexample :
    Reach cfg1 env3 (initG seedB) runB4 ∧ Terminal cfg1 env3 runB4 ∧
    runB4.crawl.visited.length = 1 ∧
    runB4.crawl.pagesProcessed + flightUrls runB4.crawl = 0 :=
  ⟨reach_runB4, ⟨rfl, Or.inr (Or.inl rfl)⟩, rfl, rfl⟩

theorem flightL_append (l1 l2 : List Batch) :
    flightL (l1 ++ l2) = flightL l1 + flightL l2 := by
  simp [flightL]

theorem flightL_cons (b : Batch) (l : List Batch) :
    flightL (b :: l) = taskLoad b.task + flightL l := by
  simp [flightL]

theorem step_pages_mono {cfg env} {g g2 : GState} (h : Step cfg env g g2) :
    g.crawl.pagesProcessed ≤ g2.crawl.pagesProcessed := by
  cases h <;> simp [finishOkG, finishErrG]

theorem reach_pages_mono {cfg env} {g0 g : GState} (h : Reach cfg env g0 g) :
    g0.crawl.pagesProcessed ≤ g.crawl.pagesProcessed := by
  induction h with
  | refl => exact le_refl _
  | tail hsteps hstep ih => exact le_trans ih (step_pages_mono hstep)

theorem step_budget {cfg env} {g g2 : GState} (h : Step cfg env g g2)
    (hb : cfg.maxPages ≤ g.crawl.pagesProcessed) :
    g2.crawl.pagesProcessed + flightUrls g2.crawl ≤
      g.crawl.pagesProcessed + flightUrls g.crawl := by
  cases h with
  | tick => exact le_refl _
  | dispatch bs q2 v2 hg hw hf hn => exact absurd hg (by omega)
  | skipDepth pre post d n u rest hif hd =>
      simp [flightUrls, hif, flightL_append, flightL_cons, taskLoad]
  | skipFailed pre post d n u rest hif hd hf =>
      simp [flightUrls, hif, flightL_append, flightL_cons, taskLoad]
  | startScrape pre post d n u rest hif hd hf =>
      simp [flightUrls, hif, flightL_append, flightL_cons, taskLoad]
  | finishOk pre post d n u ud rest links hif hres =>
      simp [finishOkG, flightUrls, hif, flightL_append, flightL_cons, taskLoad]
      omega
  | finishErr pre post d n u ud rest msg hif hres =>
      simp [finishErrG, flightUrls, hif, flightL_append, flightL_cons, taskLoad]
  | batchDone pre post d n hif =>
      simp [flightUrls, hif, flightL_append, flightL_cons, taskLoad]

/-- C1 amended.  New batches are dispatched only while `pagesProcessed <
maxPages` (the dispatch step carries that guard), so from any state where
the budget is already reached, `pagesProcessed` plus the number of
in-flight URLs never increases: the final `completed` can exceed
`maxPages` only by draining URLs that were already dispatched when the
budget was reached, never by new dispatches. -/
theorem claim1_amended_budget_overshoot (cfg : Config) (env : CrawlEnv) (g0 g : GState)
    (hreach : Reach cfg env g0 g) (hb : cfg.maxPages ≤ g0.crawl.pagesProcessed) :
    g.crawl.pagesProcessed + flightUrls g.crawl ≤
      g0.crawl.pagesProcessed + flightUrls g0.crawl := by
  induction hreach with
  | refl => exact le_refl _
  | tail hsteps hstep ih =>
      exact le_trans (step_budget hstep (le_trans hb (reach_pages_mono hsteps))) ih

/-- Witness for C1 amended along the tail of run A, starting at the state
where the budget is exactly reached with two URLs still in flight. -/
theorem claim1_amended_witness :
    runA12.crawl.pagesProcessed + flightUrls runA12.crawl ≤
      runA7.crawl.pagesProcessed + flightUrls runA7.crawl :=
  claim1_amended_budget_overshoot cfg1 env1 runA7 runA12
    (Relation.ReflTransGen.head stepA7 (Relation.ReflTransGen.head stepA8
      (Relation.ReflTransGen.head stepA9 (Relation.ReflTransGen.head stepA10
        (Relation.ReflTransGen.single stepA11)))))
    (by decide)

theorem step_pages_results {cfg env} {g g2 : GState} (h : Step cfg env g g2)
    (hp : g.crawl.pagesProcessed = g.crawl.results.length) :
    g2.crawl.pagesProcessed = g2.crawl.results.length := by
  cases h with
  | finishOk pre post d n u ud rest links hif hres => simp [finishOkG, hp]
  | finishErr pre post d n u ud rest msg hif hres => simpa [finishErrG] using hp
  | _ => exact hp

/-- C3 amended.  In every reachable state of a run, `pagesProcessed`
equals the number of successfully processed URLs (`results.length`); a URL
whose processing ends in an error is recorded in `errors` and the failed
cache but contributes nothing to the count reported as `completed`. -/
theorem claim3_amended_success_count (cfg : Config) (env : CrawlEnv)
    (startUrl : Url) (gm g : GState)
    (hreach : Reach cfg env (initRun startUrl gm) g) :
    g.crawl.pagesProcessed = g.crawl.results.length := by
  induction hreach with
  | refl => rfl
  | tail hsteps hstep ih => exact step_pages_results hstep ih

/-- Witness for C3 amended at the final state of run B. -/
theorem claim3_amended_witness :
    runB4.crawl.pagesProcessed = runB4.crawl.results.length := by
  have h : Reach cfg1 env3 (initRun seedB (initG seedB)) runB4 := reach_runB4
  exact claim3_amended_success_count cfg1 env3 seedB (initG seedB) runB4 h

theorem addToBatch_total (bs : List (String × List Url)) (d : String) (u : Url) :
    batchTotal (addToBatch bs d u) = batchTotal bs + 1 := by
  induction bs with
  | nil => simp [addToBatch, batchTotal]
  | cons p t ih =>
      rcases p with ⟨d2, us⟩
      by_cases hd : d2 = d
      · simp [addToBatch, hd, batchTotal]
        omega
      · simp [addToBatch, hd, batchTotal] at ih ⊢
        omega

theorem formGo_visited_total (env : CrawlEnv) (cfg : Config)
    (failed : List (Url × Nat)) (now : Nat) (dc : List (String × Nat)) :
    ∀ (rest : List Url) (batches : List (String × List Url)) (kept vis : List Url)
      (bs : List (String × List Url)) (q2 v2 : List Url),
      formGo env cfg failed now dc batches kept vis rest = (bs, q2, v2) →
      v2.length + batchTotal batches = vis.length + batchTotal bs := by
  intro rest
  induction rest with
  | nil =>
      intro batches kept vis bs q2 v2 h
      simp [formGo] at h
      rw [h.1, h.2.2]
  | cons u rest ih =>
      intro batches kept vis bs q2 v2 h
      rw [formGo] at h
      by_cases h1 : cfg.concurrency ≤ batches.length
      · rw [if_pos h1] at h
        cases h
        rfl
      · rw [if_neg h1] at h
        by_cases h2 : u = ""
        · rw [if_pos h2] at h
          exact ih _ _ _ _ _ _ h
        · rw [if_neg h2] at h
          by_cases h3 : u ∈ vis ∨ cacheHas failed now u
          · rw [if_pos h3] at h
            exact ih _ _ _ _ _ _ h
          · rw [if_neg h3] at h
            by_cases h4 : cfg.domainConcurrency ≤ (aget dc (getDomain env u)).getD 0
            · rw [if_pos h4] at h
              exact ih _ _ _ _ _ _ h
            · rw [if_neg h4] at h
              have h5 := ih _ _ _ _ _ _ h
              rw [addToBatch_total] at h5
              simp at h5
              omega

theorem flightL_newBatches (bs : List (String × List Url)) :
    flightL (bs.map (fun b => ⟨b.1, b.2.length, BatchTask.idle b.2⟩)) = batchTotal bs := by
  induction bs with
  | nil => rfl
  | cons p t ih => simp [flightL, batchTotal, taskLoad] at ih ⊢; omega

theorem step_visited_bound {cfg env} {g g2 : GState} (h : Step cfg env g g2)
    (hv : g.crawl.pagesProcessed + flightUrls g.crawl ≤ g.crawl.visited.length) :
    g2.crawl.pagesProcessed + flightUrls g2.crawl ≤ g2.crawl.visited.length := by
  cases h with
  | tick => exact hv
  | dispatch bs q2 v2 hg hw hf hn =>
      have htot := formGo_visited_total env cfg g.failed g.now g.crawl.domainCounts
        g.crawl.queue [] [] g.crawl.visited bs q2 v2 hf
      simp [batchTotal] at htot
      simp [flightUrls, flightL_append, flightL_newBatches, batchTotal] at hv ⊢
      omega
  | skipDepth pre post d n u rest hif hd =>
      simp [flightUrls, hif, flightL_append, flightL_cons, taskLoad] at hv ⊢
      omega
  | skipFailed pre post d n u rest hif hd hf =>
      simp [flightUrls, hif, flightL_append, flightL_cons, taskLoad] at hv ⊢
      omega
  | startScrape pre post d n u rest hif hd hf =>
      simp [flightUrls, hif, flightL_append, flightL_cons, taskLoad] at hv ⊢
      omega
  | finishOk pre post d n u ud rest links hif hres =>
      simp [finishOkG, flightUrls, hif, flightL_append, flightL_cons, taskLoad] at hv ⊢
      omega
  | finishErr pre post d n u ud rest msg hif hres =>
      simp [finishErrG, flightUrls, hif, flightL_append, flightL_cons, taskLoad] at hv ⊢
      omega
  | batchDone pre post d n hif =>
      simp [flightUrls, hif, flightL_append, flightL_cons, taskLoad] at hv ⊢
      omega

/-- C4 amended.  In every reachable state of a run, `visited.size` is at
least `pagesProcessed` plus the number of in-flight URLs; the difference
is exactly the URLs that failed or were skipped (depth or failed-cache),
which stay visited without ever being counted or re-enqueued — so the
claimed equality holds only for runs without failures or skips. -/
theorem claim4_amended_visited_bound (cfg : Config) (env : CrawlEnv)
    (startUrl : Url) (gm g : GState)
    (hreach : Reach cfg env (initRun startUrl gm) g) :
    g.crawl.pagesProcessed + flightUrls g.crawl ≤ g.crawl.visited.length := by
  induction hreach with
  | refl => exact le_refl _
  | tail hsteps hstep ih => exact step_visited_bound hstep ih

/-- Witness for C4 amended at the final state of run B (strict
inequality: 0 < 1). -/
theorem claim4_amended_witness :
    runB4.crawl.pagesProcessed + flightUrls runB4.crawl ≤ runB4.crawl.visited.length :=
  claim4_amended_visited_bound cfg1 env3 seedB (initG seedB) runB4 reach_runB4

theorem aget_aset_self {α : Type} (l : List (String × α)) (k : String) (v : α) :
    aget (aset l k v) k = some v := by
  induction l with
  | nil => simp [aset, aget]
  | cons p t ih =>
      rcases p with ⟨k2, v2⟩
      by_cases h : k2 = k
      · simp [aset, h, aget]
      · simp [aset, h, aget, ih]

theorem aget_aset_ne {α : Type} (l : List (String × α)) (k k2 : String) (v : α)
    (h : k ≠ k2) : aget (aset l k v) k2 = aget l k2 := by
  induction l with
  | nil => simp [aset, aget, h]
  | cons p t ih =>
      rcases p with ⟨k3, v3⟩
      by_cases h3 : k3 = k
      · simp [aset, h3, aget, h]
      · simp [aset, h3, aget, ih]

theorem addToBatch_key_inv (P : String → Prop) (bs : List (String × List Url))
    (d : String) (u : Url) (h1 : ∀ p ∈ bs, P p.1) (h2 : P d) :
    ∀ p ∈ addToBatch bs d u, P p.1 := by
  induction bs with
  | nil => simpa [addToBatch]
  | cons p t ih =>
      rcases p with ⟨d2, us⟩
      by_cases hd : d2 = d
      · simp only [addToBatch, if_pos hd]
        intro q hq
        rw [List.mem_cons] at hq
        rcases hq with hq | hq
        · rw [hq]
          show P d2
          rw [hd]
          exact h2
        · exact h1 q (List.mem_cons_of_mem _ hq)
      · simp only [addToBatch, if_neg hd]
        intro q hq
        rw [List.mem_cons] at hq
        rcases hq with hq | hq
        · rw [hq]
          exact h1 ⟨d2, us⟩ (List.mem_cons_self _ _)
        · exact ih (fun p hp => h1 p (List.mem_cons_of_mem _ hp)) q hq

theorem addToBatch_keys (bs : List (String × List Url)) (d : String) (u : Url) :
    (addToBatch bs d u).map Prod.fst =
      if d ∈ bs.map Prod.fst then bs.map Prod.fst else bs.map Prod.fst ++ [d] := by
  induction bs with
  | nil => simp [addToBatch]
  | cons p t ih =>
      rcases p with ⟨d2, us⟩
      by_cases hd : d2 = d
      · simp [addToBatch, hd]
      · have hne : d ≠ d2 := fun h => hd h.symm
        by_cases hmem : d ∈ t.map Prod.fst
        · simp [addToBatch, hd, ih, hmem, hne]
        · simp [addToBatch, hd, ih, hmem, hne]

theorem addToBatch_keys_nodup (bs : List (String × List Url)) (d : String) (u : Url)
    (h : (bs.map Prod.fst).Nodup) : ((addToBatch bs d u).map Prod.fst).Nodup := by
  rw [addToBatch_keys]
  by_cases hmem : d ∈ bs.map Prod.fst
  · simpa [hmem]
  · simp only [if_neg hmem, List.nodup_append, List.nodup_singleton]
    refine ⟨h, trivial, ?_⟩
    intro x hx hxd
    simp at hxd
    rw [hxd] at hx
    exact hmem hx

theorem formGo_batches (env : CrawlEnv) (cfg : Config)
    (failed : List (Url × Nat)) (now : Nat) (dc : List (String × Nat)) :
    ∀ (rest : List Url) (batches : List (String × List Url)) (kept vis : List Url)
      (bs : List (String × List Url)) (q2 v2 : List Url),
      formGo env cfg failed now dc batches kept vis rest = (bs, q2, v2) →
      (∀ p ∈ batches, (aget dc p.1).getD 0 < cfg.domainConcurrency) →
      (batches.map Prod.fst).Nodup →
      (∀ p ∈ bs, (aget dc p.1).getD 0 < cfg.domainConcurrency) ∧
        (bs.map Prod.fst).Nodup := by
  intro rest
  induction rest with
  | nil =>
      intro batches kept vis bs q2 v2 h hinv hnod
      simp [formGo] at h
      rw [← h.1]
      exact ⟨hinv, hnod⟩
  | cons u rest ih =>
      intro batches kept vis bs q2 v2 h hinv hnod
      rw [formGo] at h
      by_cases h1 : cfg.concurrency ≤ batches.length
      · rw [if_pos h1] at h
        cases h
        exact ⟨hinv, hnod⟩
      · rw [if_neg h1] at h
        by_cases h2 : u = ""
        · rw [if_pos h2] at h
          exact ih _ _ _ _ _ _ h hinv hnod
        · rw [if_neg h2] at h
          by_cases h3 : u ∈ vis ∨ cacheHas failed now u
          · rw [if_pos h3] at h
            exact ih _ _ _ _ _ _ h hinv hnod
          · rw [if_neg h3] at h
            by_cases h4 : cfg.domainConcurrency ≤ (aget dc (getDomain env u)).getD 0
            · rw [if_pos h4] at h
              exact ih _ _ _ _ _ _ h hinv hnod
            · rw [if_neg h4] at h
              exact ih _ _ _ _ _ _ h
                (addToBatch_key_inv
                  (fun k => (aget dc k).getD 0 < cfg.domainConcurrency)
                  _ _ _ hinv (by omega))
                (addToBatch_keys_nodup _ _ _ hnod)

theorem dispatchCounts_not_mem (bs : List (String × List Url)) :
    ∀ (dc : List (String × Nat)) (d : String), d ∉ bs.map Prod.fst →
      aget (dispatchCounts dc bs) d = aget dc d := by
  induction bs with
  | nil => intro dc d _; rfl
  | cons p t ih =>
      rcases p with ⟨d0, us0⟩
      intro dc d hd
      simp only [List.map_cons, List.mem_cons] at hd
      push_neg at hd
      rw [dispatchCounts, ih _ _ hd.2, aget_aset_ne _ _ _ _ (fun h => hd.1 h.symm)]

theorem dispatchCounts_mem (bs : List (String × List Url)) :
    ∀ (dc : List (String × Nat)) (d : String) (us : List Url),
      (bs.map Prod.fst).Nodup → (d, us) ∈ bs →
      aget (dispatchCounts dc bs) d = some ((aget dc d).getD 0 + us.length) := by
  induction bs with
  | nil => intro dc d us _ hmem; cases hmem
  | cons p t ih =>
      rcases p with ⟨d0, us0⟩
      intro dc d us hnod hmem
      simp only [List.map_cons, List.nodup_cons] at hnod
      rw [List.mem_cons] at hmem
      rcases hmem with hmem | hmem
      · injection hmem with he1 he2
        subst he1
        subst he2
        rw [dispatchCounts, dispatchCounts_not_mem _ _ _ hnod.1, aget_aset_self]
      · have hdne : d ≠ d0 := by
          intro he
          subst he
          exact hnod.1 (List.mem_map.mpr ⟨(d, us), hmem, rfl⟩)
        rw [dispatchCounts, ih _ _ _ hnod.2 hmem,
          aget_aset_ne _ _ _ _ (fun h => hdne h.symm)]

/-- C2 amended.  A batch is formed for a domain only when the domain's
recorded in-flight count at the start of the formation pass is strictly
below `domainConcurrency`, and dispatch raises the recorded count by the
full batch size; since the counts are not updated during the pass, one
pass can select several same-domain URLs and the count immediately after
dispatch can exceed `domainConcurrency` (bounded by `domainConcurrency -
1` plus the batch size), as the counterexample shows. -/
theorem claim2_amended_domain_counts (cfg : Config) (env : CrawlEnv) (g : GState)
    (bs : List (String × List Url)) (q2 v2 : List Url) (d : String) (us : List Url)
    (hform : formBatches env cfg g.crawl g.failed g.now = (bs, q2, v2))
    (hmem : (d, us) ∈ bs) :
    (aget g.crawl.domainCounts d).getD 0 < cfg.domainConcurrency ∧
    aget (dispatchCounts g.crawl.domainCounts bs) d =
      some ((aget g.crawl.domainCounts d).getD 0 + us.length) := by
  have hb := formGo_batches env cfg g.failed g.now g.crawl.domainCounts
    g.crawl.queue [] [] g.crawl.visited bs q2 v2 hform (by simp) (by simp)
  exact ⟨hb.1 (d, us) hmem, dispatchCounts_mem bs _ d us hb.2 hmem⟩

/-- Witness for C2 amended at the initial formation pass of run A. -/
theorem claim2_amended_witness :
    (aget (initG seedU).crawl.domainCounts "a.test").getD 0 < cfg1.domainConcurrency ∧
    aget (dispatchCounts (initG seedU).crawl.domainCounts [("a.test", [seedU])]) "a.test" =
      some ((aget (initG seedU).crawl.domainCounts "a.test").getD 0 + [seedU].length) :=
  claim2_amended_domain_counts cfg1 env1 (initG seedU) [("a.test", [seedU])] [] [seedU]
    "a.test" [seedU] rfl (by simp)

theorem cacheHas_of_entry (c : List (String × Nat)) (now : Nat) (k : String) (e : Nat)
    (h : aget c k = some e) (hle : now ≤ e) : cacheHas c now k = true := by
  simp [cacheHas, h, hle]

theorem cacheHas_isSome (c : List (String × Nat)) (now : Nat) (k : String)
    (h : cacheHas c now k = true) : (aget c k).isSome = true := by
  unfold cacheHas at h
  rcases hg : aget c k with _ | e
  · rw [hg] at h
    cases h
  · rfl

theorem step_now_mono {cfg env} {g g2 : GState} (h : Step cfg env g g2) :
    g.now ≤ g2.now := by
  cases h <;> simp [finishOkG, finishErrG]

theorem enqueueLink_seen_block (env : CrawlEnv) (visited : List Url)
    (failed : List (Url × Nat)) (now d : Nat) (u : Url) (e : Nat) (hnow : now ≤ e)
    (es : EnqSt) (l : Url) (h1 : aget es.seen u = some e) (h2 : u ∉ es.queue) :
    aget (enqueueLink env visited failed now d es l).seen u = some e ∧
      u ∉ (enqueueLink env visited failed now d es l).queue := by
  unfold enqueueLink
  rcases hn : env.normalize l with _ | nu
  · exact ⟨h1, h2⟩
  · dsimp only
    by_cases hc : nu ∈ visited ∨ nu ∈ es.queue ∨ cacheHas failed now nu ∨ cacheHas es.seen now nu
    · rw [if_pos hc]
      exact ⟨h1, h2⟩
    · rw [if_neg hc]
      have hne : nu ≠ u := by
        intro he
        subst he
        exact hc (Or.inr (Or.inr (Or.inr (cacheHas_of_entry _ _ _ _ h1 hnow))))
      constructor
      · rw [aget_aset_ne _ _ _ _ hne]
        exact h1
      · intro hmem
        rw [List.mem_append] at hmem
        rcases hmem with hmem | hmem
        · exact h2 hmem
        · simp at hmem
          exact hne hmem.symm

theorem enqueueLinks_seen_block (env : CrawlEnv) (visited : List Url)
    (failed : List (Url × Nat)) (now d : Nat) (u : Url) (e : Nat) (hnow : now ≤ e) :
    ∀ (links : List Url) (es : EnqSt), aget es.seen u = some e → u ∉ es.queue →
      aget (enqueueLinks env visited failed now d es links).seen u = some e ∧
        u ∉ (enqueueLinks env visited failed now d es links).queue := by
  intro links
  induction links with
  | nil => intro es h1 h2; exact ⟨h1, h2⟩
  | cons l ls ih =>
      intro es h1 h2
      have hstep := enqueueLink_seen_block env visited failed now d u e hnow es l h1 h2
      simp only [enqueueLinks, List.foldl_cons]
      exact ih _ hstep.1 hstep.2

theorem formGo_queue_sub (env : CrawlEnv) (cfg : Config)
    (failed : List (Url × Nat)) (now : Nat) (dc : List (String × Nat)) :
    ∀ (rest : List Url) (batches : List (String × List Url)) (kept vis : List Url)
      (bs : List (String × List Url)) (q2 v2 : List Url),
      formGo env cfg failed now dc batches kept vis rest = (bs, q2, v2) →
      ∀ x ∈ q2, x ∈ kept ∨ x ∈ rest := by
  intro rest
  induction rest with
  | nil =>
      intro batches kept vis bs q2 v2 h x hx
      simp [formGo] at h
      rw [← h.2.1] at hx
      exact Or.inl (List.mem_reverse.mp hx)
  | cons u rest ih =>
      intro batches kept vis bs q2 v2 h x hx
      rw [formGo] at h
      by_cases h1 : cfg.concurrency ≤ batches.length
      · rw [if_pos h1] at h
        cases h
        rw [List.mem_append] at hx
        rcases hx with hx | hx
        · exact Or.inl (List.mem_reverse.mp hx)
        · exact Or.inr hx
      · rw [if_neg h1] at h
        by_cases h2 : u = ""
        · rw [if_pos h2] at h
          rcases ih _ _ _ _ _ _ h x hx with hk | hr
          · rw [List.mem_cons] at hk
            rcases hk with hk | hk
            · exact Or.inr (hk ▸ List.mem_cons_self u rest)
            · exact Or.inl hk
          · exact Or.inr (List.mem_cons_of_mem u hr)
        · rw [if_neg h2] at h
          by_cases h3 : u ∈ vis ∨ cacheHas failed now u
          · rw [if_pos h3] at h
            rcases ih _ _ _ _ _ _ h x hx with hk | hr
            · exact Or.inl hk
            · exact Or.inr (List.mem_cons_of_mem u hr)
          · rw [if_neg h3] at h
            by_cases h4 : cfg.domainConcurrency ≤ (aget dc (getDomain env u)).getD 0
            · rw [if_pos h4] at h
              rcases ih _ _ _ _ _ _ h x hx with hk | hr
              · rw [List.mem_cons] at hk
                rcases hk with hk | hk
                · exact Or.inr (hk ▸ List.mem_cons_self u rest)
                · exact Or.inl hk
              · exact Or.inr (List.mem_cons_of_mem u hr)
            · rw [if_neg h4] at h
              rcases ih _ _ _ _ _ _ h x hx with hk | hr
              · exact Or.inl hk
              · exact Or.inr (List.mem_cons_of_mem u hr)

theorem step_seen_block {cfg env} {g g2 : GState} (h : Step cfg env g g2)
    (u : Url) (e : Nat) (h1 : aget g.seen u = some e) (h2 : u ∉ g.crawl.queue)
    (hnow : g.now ≤ e) :
    aget g2.seen u = some e ∧ u ∉ g2.crawl.queue := by
  cases h with
  | tick => exact ⟨h1, h2⟩
  | dispatch bs q2 v2 hg hw hf hn =>
      refine ⟨h1, ?_⟩
      intro hmem
      rcases formGo_queue_sub env cfg g.failed g.now g.crawl.domainCounts
        g.crawl.queue [] [] g.crawl.visited bs q2 v2 hf u hmem with hk | hr
      · cases hk
      · exact h2 hr
  | skipDepth pre post d n w rest hif hd => exact ⟨h1, h2⟩
  | skipFailed pre post d n w rest hif hd hf => exact ⟨h1, h2⟩
  | startScrape pre post d n w rest hif hd hf => exact ⟨h1, h2⟩
  | finishOk pre post d n w ud rest links hif hres =>
      rcases links with _ | ls
      · exact ⟨h1, h2⟩
      · by_cases hud : ud < cfg.maxDepth
        · simp only [finishOkG, if_pos hud]
          exact enqueueLinks_seen_block env g.crawl.visited g.failed g.now ud u e hnow
            (env.filterLinks ls w) ⟨g.crawl.queue, g.crawl.depth, g.seen⟩ h1 h2
        · simp only [finishOkG, if_neg hud]
          exact ⟨h1, h2⟩
  | finishErr pre post d n w ud rest msg hif hres => exact ⟨h1, h2⟩
  | batchDone pre post d n hif => exact ⟨h1, h2⟩

/-- C10.  The start of a run (`initRun`) clears only the failed-URL cache
and leaves the module-level seen-URL cache untouched.  Hence if an earlier
run left a seen-cache entry for `u` (expiry `e`, set at enqueue time with
the 1-hour TTL) and `u` is not the new run's seed, then in every state of
the second run reached while the entry is unexpired (`now ≤ e`), the entry
is still present and `u` is not in the queue: every enqueue attempt of `u`
is rejected by the enqueue-time membership check, whose seen-cache
disjunct holds.  Only the seed enters the queue without that check. -/
theorem claim10_seen_cache_persistence (cfg : Config) (env : CrawlEnv)
    (gm : GState) (seed2 u : Url) (e : Nat) (g : GState)
    (hseen : aget gm.seen u = some e) (hne : u ≠ seed2)
    (hreach : Reach cfg env (initRun seed2 gm) g) (hnow : g.now ≤ e) :
    aget g.seen u = some e ∧ u ∉ g.crawl.queue := by
  revert hnow
  induction hreach with
  | refl =>
      intro hnow
      refine ⟨hseen, ?_⟩
      simp [initRun, initCState]
      exact hne
  | tail hsteps hstep ih =>
      intro hnow
      have hmono := step_now_mono hstep
      have hprev := ih (le_trans hmono hnow)
      exact step_seen_block hstep u e hprev.1 hprev.2 (le_trans hmono hnow)

/-- Witness for C10: a second run started while `u1` is still
seen-cached. -/
theorem claim10_witness :
    aget (initRun seedB gmC10).seen u1 = some 5 ∧
      u1 ∉ (initRun seedB gmC10).crawl.queue :=
  claim10_seen_cache_persistence cfg1 env1 gmC10 seedB u1 5 (initRun seedB gmC10)
    rfl (by decide) Relation.ReflTransGen.refl (by decide)

theorem addToBatch_vals (Q : Url → Prop) (bs : List (String × List Url))
    (d : String) (u : Url) (h1 : ∀ p ∈ bs, ∀ w ∈ p.2, Q w) (h2 : Q u) :
    ∀ p ∈ addToBatch bs d u, ∀ w ∈ p.2, Q w := by
  induction bs with
  | nil =>
      intro p hp w hw
      simp [addToBatch] at hp
      rw [hp] at hw
      simp at hw
      rw [hw]
      exact h2
  | cons q t ih =>
      rcases q with ⟨d2, us⟩
      by_cases hd : d2 = d
      · simp only [addToBatch, if_pos hd]
        intro p hp w hw
        rw [List.mem_cons] at hp
        rcases hp with hp | hp
        · rw [hp] at hw
          simp only [List.mem_append] at hw
          rcases hw with hw | hw
          · exact h1 ⟨d2, us⟩ (List.mem_cons_self _ _) w hw
          · simp at hw
            rw [hw]
            exact h2
        · exact h1 p (List.mem_cons_of_mem _ hp) w hw
      · simp only [addToBatch, if_neg hd]
        intro p hp w hw
        rw [List.mem_cons] at hp
        rcases hp with hp | hp
        · rw [hp] at hw
          exact h1 ⟨d2, us⟩ (List.mem_cons_self _ _) w hw
        · exact ih (fun p hp => h1 p (List.mem_cons_of_mem _ hp)) p hp w hw

theorem formGo_membership (env : CrawlEnv) (cfg : Config)
    (failed : List (Url × Nat)) (now : Nat) (dc : List (String × Nat)) :
    ∀ (rest : List Url) (batches : List (String × List Url)) (kept vis : List Url)
      (bs : List (String × List Url)) (q2 v2 : List Url),
      formGo env cfg failed now dc batches kept vis rest = (bs, q2, v2) →
      (∀ x ∈ kept, x ∈ q2) ∧
      (∀ x ∈ vis, x ∈ v2) ∧
      (∀ x ∈ rest, x ∈ q2 ∨ x ∈ v2 ∨ cacheHas failed now x = true) ∧
      ((∀ p ∈ batches, ∀ w ∈ p.2, w ∈ vis) → ∀ p ∈ bs, ∀ w ∈ p.2, w ∈ v2) := by
  intro rest
  induction rest with
  | nil =>
      intro batches kept vis bs q2 v2 h
      simp [formGo] at h
      rw [← h.1, ← h.2.1, ← h.2.2]
      refine ⟨fun x hx => List.mem_reverse.mpr hx, fun x hx => hx, ?_, fun hyp => hyp⟩
      intro x hx
      exact absurd hx (List.not_mem_nil x)
  | cons u rest ih =>
      intro batches kept vis bs q2 v2 h
      rw [formGo] at h
      by_cases h1 : cfg.concurrency ≤ batches.length
      · rw [if_pos h1] at h
        cases h
        refine ⟨?_, fun x hx => hx, ?_, fun hyp => hyp⟩
        · intro x hx
          exact List.mem_append_left _ (List.mem_reverse.mpr hx)
        · intro x hx
          exact Or.inl (List.mem_append_right _ hx)
      · rw [if_neg h1] at h
        by_cases h2 : u = ""
        · rw [if_pos h2] at h
          have hrec := ih _ _ _ _ _ _ h
          refine ⟨fun x hx => hrec.1 x (List.mem_cons_of_mem _ hx), hrec.2.1, ?_, hrec.2.2.2⟩
          intro x hx
          rw [List.mem_cons] at hx
          rcases hx with hx | hx
          · exact Or.inl (hrec.1 x (hx ▸ List.mem_cons_self u kept))
          · exact hrec.2.2.1 x hx
        · rw [if_neg h2] at h
          by_cases h3 : u ∈ vis ∨ cacheHas failed now u
          · rw [if_pos h3] at h
            have hrec := ih _ _ _ _ _ _ h
            refine ⟨hrec.1, hrec.2.1, ?_, hrec.2.2.2⟩
            intro x hx
            rw [List.mem_cons] at hx
            rcases hx with hx | hx
            · rcases h3 with h3 | h3
              · exact Or.inr (Or.inl (by rw [hx]; exact hrec.2.1 u h3))
              · exact Or.inr (Or.inr (by rw [hx]; exact h3))
            · exact hrec.2.2.1 x hx
          · rw [if_neg h3] at h
            by_cases h4 : cfg.domainConcurrency ≤ (aget dc (getDomain env u)).getD 0
            · rw [if_pos h4] at h
              have hrec := ih _ _ _ _ _ _ h
              refine ⟨fun x hx => hrec.1 x (List.mem_cons_of_mem _ hx), hrec.2.1, ?_,
                hrec.2.2.2⟩
              intro x hx
              rw [List.mem_cons] at hx
              rcases hx with hx | hx
              · exact Or.inl (hrec.1 x (hx ▸ List.mem_cons_self u kept))
              · exact hrec.2.2.1 x hx
            · rw [if_neg h4] at h
              have hrec := ih _ _ _ _ _ _ h
              refine ⟨hrec.1, ?_, ?_, ?_⟩
              · intro x hx
                exact hrec.2.1 x (List.mem_append_left _ hx)
              · intro x hx
                rw [List.mem_cons] at hx
                rcases hx with hx | hx
                · refine Or.inr (Or.inl (hrec.2.1 x ?_))
                  rw [hx]
                  exact List.mem_append_right _ (List.mem_singleton.mpr rfl)
                · exact hrec.2.2.1 x hx
              · intro hyp
                refine hrec.2.2.2 ?_
                refine addToBatch_vals (fun w => w ∈ vis ++ [u]) batches
                  (getDomain env u) u ?_ ?_
                · intro p hp w hw
                  exact List.mem_append_left _ (hyp p hp w hw)
                · exact List.mem_append_right _ (List.mem_singleton.mpr rfl)

theorem enqueueLink_depth (env : CrawlEnv) (visited : List Url)
    (failed : List (Url × Nat)) (now d : Nat) (es : EnqSt) (l : Url)
    (hJ : ∀ w, (aget es.depth w).isSome = true → w ∈ es.queue ∨ w ∈ visited) :
    (∀ w dv, aget es.depth w = some dv →
      aget (enqueueLink env visited failed now d es l).depth w = some dv) ∧
    (∀ w, (aget (enqueueLink env visited failed now d es l).depth w).isSome = true →
      w ∈ (enqueueLink env visited failed now d es l).queue ∨ w ∈ visited) ∧
    (∀ x ∈ es.queue, x ∈ (enqueueLink env visited failed now d es l).queue) := by
  unfold enqueueLink
  rcases hn : env.normalize l with _ | nu
  · exact ⟨fun w dv h => h, hJ, fun x hx => hx⟩
  · dsimp only
    by_cases hc : nu ∈ visited ∨ nu ∈ es.queue ∨ cacheHas failed now nu ∨ cacheHas es.seen now nu
    · rw [if_pos hc]
      exact ⟨fun w dv h => h, hJ, fun x hx => hx⟩
    · rw [if_neg hc]
      push_neg at hc
      have hnuDepth : aget es.depth nu = none := by
        rcases hh : aget es.depth nu with _ | dv0
        · rfl
        · rcases hJ nu (by rw [hh]; rfl) with hq | hv
          · exact absurd hq hc.2.1
          · exact absurd hv hc.1
      refine ⟨?_, ?_, ?_⟩
      · intro w dv hw
        have hne : nu ≠ w := by
          intro he
          rw [he] at hnuDepth
          rw [hnuDepth] at hw
          cases hw
        rw [aget_aset_ne _ _ _ _ hne]
        exact hw
      · intro w hw
        by_cases hwe : nu = w
        · subst hwe
          exact Or.inl (List.mem_append_right _ (List.mem_singleton.mpr rfl))
        · rw [aget_aset_ne _ _ _ _ hwe] at hw
          rcases hJ w hw with hq | hv
          · exact Or.inl (List.mem_append_left _ hq)
          · exact Or.inr hv
      · intro x hx
        exact List.mem_append_left _ hx

theorem enqueueLinks_depth (env : CrawlEnv) (visited : List Url)
    (failed : List (Url × Nat)) (now d : Nat) :
    ∀ (links : List Url) (es : EnqSt),
      (∀ w, (aget es.depth w).isSome = true → w ∈ es.queue ∨ w ∈ visited) →
      (∀ w dv, aget es.depth w = some dv →
        aget (enqueueLinks env visited failed now d es links).depth w = some dv) ∧
      (∀ w, (aget (enqueueLinks env visited failed now d es links).depth w).isSome = true →
        w ∈ (enqueueLinks env visited failed now d es links).queue ∨ w ∈ visited) ∧
      (∀ x ∈ es.queue, x ∈ (enqueueLinks env visited failed now d es links).queue) := by
  intro links
  induction links with
  | nil => intro es hJ; exact ⟨fun w dv h => h, hJ, fun x hx => hx⟩
  | cons l ls ih =>
      intro es hJ
      have hone := enqueueLink_depth env visited failed now d es l hJ
      have hrec := ih (enqueueLink env visited failed now d es l) hone.2.1
      simp only [enqueueLinks, List.foldl_cons]
      refine ⟨?_, hrec.2.1, ?_⟩
      · intro w dv hw
        exact hrec.1 w dv (hone.1 w dv hw)
      · intro x hx
        exact hrec.2.2 x (hone.2.2 x hx)

theorem depthInv_init (startUrl : Url) (gm : GState) :
    DepthInv (initRun startUrl gm) := by
  refine ⟨?_, ?_, ?_⟩
  · intro u hu
    simp only [initRun, initCState, aget] at hu ⊢
    by_cases h : startUrl = u
    · exact Or.inl (List.mem_singleton.mpr h.symm)
    · rw [if_neg h] at hu
      cases hu
  · intro u hu
    simp only [initRun, aget] at hu
    cases hu
  · intro b hb
    simp only [initRun, initCState] at hb
    cases hb

theorem stepDepthInv {cfg env} {g g2 : GState} (h : Step cfg env g g2)
    (hinv : DepthInv g) : DepthInv g2 := by
  obtain ⟨hJ, hF, hB⟩ := hinv
  cases h with
  | tick => exact ⟨hJ, hF, hB⟩
  | dispatch bs q2 v2 hg hw hf hn =>
      have hm := formGo_membership env cfg g.failed g.now g.crawl.domainCounts
        g.crawl.queue [] [] g.crawl.visited bs q2 v2 hf
      have hv2 : ∀ x ∈ g.crawl.visited, x ∈ v2 := hm.2.1
      refine ⟨?_, ?_, ?_⟩
      · intro u hu
        rcases hJ u hu with hq | hv
        · rcases hm.2.2.1 u hq with h2 | h2 | h2
          · exact Or.inl h2
          · exact Or.inr h2
          · exact Or.inr (hv2 u (hF u (cacheHas_isSome _ _ _ h2)))
        · exact Or.inr (hv2 u hv)
      · intro u hu
        exact hv2 u (hF u hu)
      · intro b hb
        rw [List.mem_append] at hb
        rcases hb with hb | hb
        · intro u hu
          exact hv2 u (hB b hb u hu)
        · rw [List.mem_map] at hb
          obtain ⟨p, hp, hpe⟩ := hb
          intro u hu
          rw [← hpe] at hu
          simp only [batchUrls] at hu
          exact hm.2.2.2 (fun p hp => absurd hp (List.not_mem_nil p)) p hp u hu
  | skipDepth pre post dmn n w rest hif hd =>
      refine ⟨hJ, hF, ?_⟩
      intro b hb
      rw [List.mem_append, List.mem_cons] at hb
      rcases hb with hb | hb | hb
      · exact hB b (by rw [hif]; exact List.mem_append_left _ hb)
      · intro u hu
        refine hB ⟨dmn, n, BatchTask.idle (w :: rest)⟩
          (by rw [hif]; exact List.mem_append_right _ (List.mem_cons_self _ _)) u ?_
        rw [hb] at hu
        simp only [batchUrls] at hu ⊢
        exact List.mem_cons_of_mem _ hu
      · exact hB b (by rw [hif]; exact List.mem_append_right _ (List.mem_cons_of_mem _ hb))
  | skipFailed pre post dmn n w rest hif hd hfc =>
      refine ⟨hJ, hF, ?_⟩
      intro b hb
      rw [List.mem_append, List.mem_cons] at hb
      rcases hb with hb | hb | hb
      · exact hB b (by rw [hif]; exact List.mem_append_left _ hb)
      · intro u hu
        refine hB ⟨dmn, n, BatchTask.idle (w :: rest)⟩
          (by rw [hif]; exact List.mem_append_right _ (List.mem_cons_self _ _)) u ?_
        rw [hb] at hu
        simp only [batchUrls] at hu ⊢
        exact List.mem_cons_of_mem _ hu
      · exact hB b (by rw [hif]; exact List.mem_append_right _ (List.mem_cons_of_mem _ hb))
  | startScrape pre post dmn n w rest hif hd hfc =>
      refine ⟨hJ, hF, ?_⟩
      intro b hb
      rw [List.mem_append, List.mem_cons] at hb
      rcases hb with hb | hb | hb
      · exact hB b (by rw [hif]; exact List.mem_append_left _ hb)
      · intro u hu
        refine hB ⟨dmn, n, BatchTask.idle (w :: rest)⟩
          (by rw [hif]; exact List.mem_append_right _ (List.mem_cons_self _ _)) u ?_
        rw [hb] at hu
        simp only [batchUrls] at hu ⊢
        exact hu
      · exact hB b (by rw [hif]; exact List.mem_append_right _ (List.mem_cons_of_mem _ hb))
  | finishOk pre post dmn n w ud rest links hif hres =>
      have hBshrink : ∀ b, b ∈ pre ++ (⟨dmn, n, BatchTask.idle rest⟩ : Batch) :: post →
          ∀ u ∈ batchUrls b, u ∈ g.crawl.visited := by
        intro b hb
        rw [List.mem_append, List.mem_cons] at hb
        rcases hb with hb | hb | hb
        · exact hB b (by rw [hif]; exact List.mem_append_left _ hb)
        · intro u hu
          refine hB ⟨dmn, n, BatchTask.scraping w ud rest⟩
            (by rw [hif]; exact List.mem_append_right _ (List.mem_cons_self _ _)) u ?_
          rw [hb] at hu
          simp only [batchUrls] at hu ⊢
          exact List.mem_cons_of_mem _ hu
        · exact hB b (by rw [hif]; exact List.mem_append_right _ (List.mem_cons_of_mem _ hb))
      rcases links with _ | ls
      · exact ⟨hJ, hF, hBshrink⟩
      · by_cases hud : ud < cfg.maxDepth
        · simp only [finishOkG, if_pos hud]
          have hfold := enqueueLinks_depth env g.crawl.visited g.failed g.now ud
            (env.filterLinks ls w) ⟨g.crawl.queue, g.crawl.depth, g.seen⟩ hJ
          exact ⟨hfold.2.1, hF, hBshrink⟩
        · simp only [finishOkG, if_neg hud]
          exact ⟨hJ, hF, hBshrink⟩
  | finishErr pre post dmn n w ud rest msg hif hres =>
      refine ⟨hJ, ?_, ?_⟩
      · intro u hu
        simp only [finishErrG] at hu
        by_cases hwe : w = u
        · refine hB ⟨dmn, n, BatchTask.scraping w ud rest⟩
            (by rw [hif]; exact List.mem_append_right _ (List.mem_cons_self _ _)) u ?_
          simp only [batchUrls]
          rw [hwe]
          exact List.mem_cons_self _ _
        · rw [aget_aset_ne _ _ _ _ hwe] at hu
          exact hF u hu
      · intro b hb
        simp only [finishErrG] at hb
        rw [List.mem_append, List.mem_cons] at hb
        rcases hb with hb | hb | hb
        · exact hB b (by rw [hif]; exact List.mem_append_left _ hb)
        · intro u hu
          refine hB ⟨dmn, n, BatchTask.scraping w ud rest⟩
            (by rw [hif]; exact List.mem_append_right _ (List.mem_cons_self _ _)) u ?_
          rw [hb] at hu
          simp only [batchUrls] at hu ⊢
          exact List.mem_cons_of_mem _ hu
        · exact hB b (by rw [hif]; exact List.mem_append_right _ (List.mem_cons_of_mem _ hb))
  | batchDone pre post dmn n hif =>
      refine ⟨hJ, hF, ?_⟩
      intro b hb
      rw [List.mem_append] at hb
      rcases hb with hb | hb
      · exact hB b (by rw [hif]; exact List.mem_append_left _ hb)
      · exact hB b (by rw [hif]; exact List.mem_append_right _ (List.mem_cons_of_mem _ hb))

theorem reach_depthInv {cfg env} {startUrl : Url} {gm g : GState}
    (h : Reach cfg env (initRun startUrl gm) g) : DepthInv g := by
  induction h with
  | refl => exact depthInv_init startUrl gm
  | tail hsteps hstep ih => exact stepDepthInv hstep ih

theorem step_depth_persist {cfg env} {g g2 : GState} (h : Step cfg env g g2)
    (hinv : DepthInv g) (u : Url) (dv : Nat)
    (hd : aget g.crawl.depth u = some dv) : aget g2.crawl.depth u = some dv := by
  cases h with
  | tick => exact hd
  | dispatch bs q2 v2 hg hw hf hn => exact hd
  | skipDepth pre post dmn n w rest hif hdd => exact hd
  | skipFailed pre post dmn n w rest hif hdd hfc => exact hd
  | startScrape pre post dmn n w rest hif hdd hfc => exact hd
  | finishOk pre post dmn n w ud rest links hif hres =>
      rcases links with _ | ls
      · exact hd
      · by_cases hud : ud < cfg.maxDepth
        · simp only [finishOkG, if_pos hud]
          exact (enqueueLinks_depth env g.crawl.visited g.failed g.now ud
            (env.filterLinks ls w) ⟨g.crawl.queue, g.crawl.depth, g.seen⟩ hinv.1).1 u dv hd
        · simp only [finishOkG, if_neg hud]
          exact hd
  | finishErr pre post dmn n w ud rest msg hif hres => exact hd
  | batchDone pre post dmn n hif => exact hd

/-- C9.  A URL's recorded depth never changes after it is first recorded:
the seed is recorded at depth 0 when the run state is built, each
discovered link is recorded at its discovering page's depth plus one at
enqueue time (see `enqueueLink`), and the enqueue-time dedup checks
(visited, queued, failed-cache, seen-cache) run before any depth write, so
a URL rediscovered later through a different path — at whatever depth —
keeps its first-recorded depth in every later reachable state. -/
theorem claim9_depth_write_once (cfg : Config) (env : CrawlEnv)
    (startUrl : Url) (gm g g2 : GState) (u : Url) (dv : Nat)
    (h1 : Reach cfg env (initRun startUrl gm) g)
    (h2 : Reach cfg env g g2)
    (hd : aget g.crawl.depth u = some dv) :
    aget g2.crawl.depth u = some dv := by
  induction h2 with
  | refl => exact hd
  | tail hsteps hstep ih =>
      exact step_depth_persist hstep
        (reach_depthInv (Relation.ReflTransGen.trans h1 hsteps)) u dv ih

/-- Witness for C9: the seed's depth-0 binding survives a step. -/
theorem claim9_witness :
    aget ({ initRun seedU (initG seedU) with
      now := (initRun seedU (initG seedU)).now + 1 }).crawl.depth seedU = some 0 :=
  claim9_depth_write_once cfg1 env1 seedU (initG seedU) (initRun seedU (initG seedU))
    ({ initRun seedU (initG seedU) with now := (initRun seedU (initG seedU)).now + 1 })
    seedU 0 Relation.ReflTransGen.refl
    (Relation.ReflTransGen.single (Step.tick (initRun seedU (initG seedU)))) rfl

end Crawl

end NimCrawl
